import Mathlib

/-!
Shallow embedding of `src/packages/san-cli/lib/Service.js` (the `Service`
class of the san-cli package) and proofs about its specification claims.

JavaScript strings are modelled as Lean `String`/`List Char`; JS runtime
values that the code inspects only through `typeof`, truthiness and a few
fields are modelled by small inductive types.  External collaborators
(webpack, webpack-merge, webpack-chain, cosmiconfig, the module resolver,
the CLI parser) are passed in as explicit parameters, mirroring the
spec's "out of scope" boundary.
-/

set_option autoImplicit false

namespace SanCli

/-- A JS value as far as the flag-handler dispatch logic inspects it: the
only test the code performs on a handler's return value is `=== false`. -/
inductive JSVal where
  | undef
  | nullv
  | bool (b : Bool)
  | num (n : Nat)
  | str (s : String)
deriving DecidableEq, Repr

/-- Parsed-argv objects are opaque to the dispatch logic; handlers receive
them unchanged. -/
abbrev Argv := Nat

/-- A webpack-chain `Config` object is opaque to `Service`; chain callbacks
transform it and `toConfig` (a collaborator) materializes it. -/
abbrev ChainC := Nat

/-- A command's yargs flag schema: a plain JS object, keys to values. -/
def Flags := List (String × JSVal)

/-! ## Command-name normalization (`getCommandName`, Service.js lines 517-522)

```
function getCommandName(command) {
    return command
        .replace(/\s{2,}/g, ' ')
        .split(/\s+(?![^[]*]|[^<]*>)/)[0]
        .trim();
}
```
-/

/-- JS `\s` (restricted to the ASCII whitespace the CLI actually meets). -/
def isWs (c : Char) : Bool :=
  c = ' ' ∨ c = '\t' ∨ c = '\n' ∨ c = '\r' ∨ c = '\x0b' ∨ c = '\x0c'

mutual

/-- Models `command.replace(/\s{2,}/g, ' ')`: every maximal run of two or more
whitespace characters becomes a single space; an isolated whitespace
character is kept as it is. -/
def collapseWs : List Char → List Char
  | [] => []
  | [c] => [c]
  | c :: d :: rest2 =>
    if isWs c ∧ isWs d then ' ' :: skipWsRun rest2
    else c :: collapseWs (d :: rest2)
termination_by l => (l.length, 0)
decreasing_by
  all_goals simp_arith [Prod.lex_def]

/-- Drops the remaining whitespace of the run being collapsed, then
resumes `collapseWs` on the rest. -/
def skipWsRun : List Char → List Char
  | [] => []
  | c :: rest => if isWs c then skipWsRun rest else collapseWs (c :: rest)
termination_by l => (l.length, 1)
decreasing_by
  all_goals simp_arith [Prod.lex_def]

end

/-- The regex fragment `[^[]*]` tested at a position: some `]` occurs with
no `[` before it. -/
def matchA : List Char → Bool
  | [] => false
  | c :: rest => if c = ']' then true else if c = '[' then false else matchA rest

/-- The regex fragment `[^<]*>` tested at a position: some `>` occurs with
no `<` before it. -/
def matchB : List Char → Bool
  | [] => false
  | c :: rest => if c = '>' then true else if c = '<' then false else matchB rest

/-- After whitespace collapsing no two whitespace characters are adjacent,
so the split separator `\s+(?![^[]*]|[^<]*>)` is a single whitespace
character whose negative lookahead holds.  `splitFirst` returns the
segment before the first separator (`split(...)[0]`). -/
def splitFirst : List Char → List Char
  | [] => []
  | c :: rest =>
    if isWs c ∧ matchA rest = false ∧ matchB rest = false then []
    else c :: splitFirst rest

/-- JS `String.prototype.trim`. -/
def trimChars (l : List Char) : List Char :=
  ((l.dropWhile isWs).reverse.dropWhile isWs).reverse

/-- Models `getCommandName` on the character-list level. -/
def getCommandNameL (l : List Char) : List Char :=
  trimChars (splitFirst (collapseWs l))

/-- Models `getCommandName(command)` (Service.js lines 517-522). -/
def getCommandName (command : String) : String :=
  ⟨getCommandNameL command.data⟩

/-! ## Plugin references and `_resolvePlugin` / `resolvePlugins`
(Service.js lines 94-153)

A plugin reference is a JS value inspected through `Array.isArray`,
`typeof`, `.length === 2`, `.id`, `.apply` and `.default`.  `arr2 a b`
is an array of length exactly two; `arrOther` any other array;
`obj id hasApply dflt` any non-array object (`id` absent or a string,
`hasApply` whether `.apply` is a function, `dflt` the `.default`
property); `other` any other (truthy) primitive. -/
inductive PVal where
  | str (s : String)
  | obj (id : Option String) (hasApply : Bool) (dflt : Option PVal)
  | arr2 (a b : PVal)
  | arrOther
  | other

/-- JS truthiness of the modelled values (absent values are `Option.none`
at use sites; `other` stands for a truthy primitive). -/
def pvalTruthy : PVal → Bool
  | .str s => !(s = "")
  | _ => true

/-- Truthiness of an `.id` property (`undefined` or a string). -/
def idTruthy : Option String → Bool
  | some s => !(s = "")
  | none => false

/-- Models `if (plugin.default) { plugin = plugin.default; }` -/
def unwrapDefault : PVal → PVal
  | .obj i h (some d) => if pvalTruthy d then d else .obj i h (some d)
  | m => m

/-- JS string coercion `'...' + p` for the error messages of the
non-string branches (modelled coarsely; no claim depends on it). -/
def pvalShow : PVal → String
  | .str s => s
  | .obj _ _ _ => "[object Object]"
  | .arr2 _ _ => "[array]"
  | .arrOther => "[array]"
  | .other => "[value]"

/-- Models `_resolvePlugin(p)` (Service.js lines 112-153).  `env` is the module
resolver (`require`): `none` means `require` throws.  A thrown `SError`
is modelled as `.error msg`.  Note that in the string branch the inner
`throw new SError('Plugin is valid : ' + p)` is caught by the
surrounding `try`/`catch`, which rethrows `'Require plugin is valid : ' + p`,
so every failure of a string reference carries that message. -/
def resolvePluginRef (env : String → Option PVal) (p : PVal) : Except String PVal :=
  let pluginOptions : Option PVal := match p with | .arr2 _ b => some b | _ => none
  let p1 : PVal := match p with | .arr2 a _ => a | q => q
  match p1 with
  | .str name =>
    match env name with
    | none => .error ("Require plugin is valid : " ++ name)
    | some loaded =>
      match unwrapDefault loaded with
      | .obj id true dflt =>
        let id2 := if idTruthy id then id else some name
        let plugin2 := PVal.obj id2 true dflt
        match pluginOptions with
        | some opts => if pvalTruthy opts then .ok (.arr2 plugin2 opts) else .ok plugin2
        | none => .ok plugin2
      | _ => .error ("Require plugin is valid : " ++ name)
  | .obj (some i) true dflt =>
    if i = "" then .error ("Plugin is valid : " ++ pvalShow (.obj (some i) true dflt))
    else .ok (.obj (some i) true dflt)
  | q => .error ("Plugin is valid : " ++ pvalShow q)

/-- Models `plugins.map(this._resolvePlugin)` with JS exception propagation:
the first thrown `SError` aborts the whole resolution. -/
def resolveRefList (env : String → Option PVal) : List PVal → Except String (List PVal)
  | [] => .ok []
  | p :: rest =>
    match resolvePluginRef env p with
    | .error e => .error e
    | .ok r =>
      match resolveRefList env rest with
      | .error e => .error e
      | .ok rs => .ok (r :: rs)

/-- Models `const BUILDIN_PLUGINS = ['base', 'css', 'app', 'optimization', 'babel'];` -/
def BUILDIN_PLUGINS : List String := ["base", "css", "app", "optimization", "babel"]

/-- Modelled from the spec: the built-in plugin modules
`require('../configs/<id>')` are not part of the sources under
verification; per the spec each is a plugin module exporting an object
with an `apply` function (and its id). -/
def builtinModule (id : String) : PVal := PVal.obj (some id) true none

/-- The built-in plugin list computed in `resolvePlugins`' step 0
(Service.js lines 96-99): empty unless `useBuiltInPlugin`. -/
def builtinsOf (useBuiltInPlugin : Bool) : List PVal :=
  if useBuiltInPlugin then BUILDIN_PLUGINS.map builtinModule else []

/-- Models `resolvePlugins(plugins, useBuiltInPlugin)` (Service.js lines 94-111).
The caller-side coercion `Array.isArray(plugins) ? plugins : []` is
outside the model: the argument is already a list. -/
def resolvePlugins (env : String → Option PVal) (plugins : List PVal)
    (useBuiltInPlugin : Bool) : Except String (List PVal) :=
  let builtInPlugins := builtinsOf useBuiltInPlugin
  if plugins.length ≠ 0 then
    match resolveRefList env plugins with
    | .error e => .error e
    | .ok rs => .ok (builtInPlugins ++ rs)
  else .ok builtInPlugins

/-! ## Webpack config objects, rules and `cloneRuleNames`
(Service.js lines 456-500)

A materialized webpack config is inspected by `Service` only through
`config.module`, `config.module.rules`, a rule's `__ruleNames` property
and its `oneOf` children; everything else is opaque payload. -/

mutual

/-- A webpack rule object: its `__ruleNames` property (`ruleNames`,
absent or an array of strings), opaque payload, and optional `oneOf`
children. -/
inductive WRule where
  | mk (ruleNames : Option (List String)) (payload : Nat) (oneOf : Option WRules)

/-- An array of rule objects. -/
inductive WRules where
  | rnil
  | rcons (r : WRule) (rest : WRules)

end

/-- The `__ruleNames` property of a rule. -/
def WRule.names : WRule → Option (List String)
  | .mk n _ _ => n

/-- The `oneOf` property of a rule. -/
def WRule.oneOf : WRule → Option WRules
  | .mk _ _ o => o

/-- JS `rules[i]` on a rule array. -/
def WRules.get? : WRules → Nat → Option WRule
  | .rnil, _ => none
  | .rcons r _, 0 => some r
  | .rcons _ rest, n + 1 => rest.get? n

/-- Number of rules in a rule array. -/
def WRules.length : WRules → Nat
  | .rnil => 0
  | .rcons _ rest => rest.length + 1

mutual

/-- One step of `cloneRuleNames`' `forEach`: define `__ruleNames` on the
post-merge rule from the pre-merge rule and recurse into `oneOf`. -/
def cloneRule : WRule → WRule → WRule
  | .mk _ p o, .mk fn _ fo =>
    .mk fn p
      (match o, fo with
       | some ts, some fs => some (cloneRules ts fs)
       | _, _ => o)

/-- Models `cloneRuleNames(to, from)` (Service.js lines 488-500) on two rule
arrays: `from.forEach((r, i) => { if (to[i]) { ... } })`.  Entries of
`to` beyond `from.length` are untouched; entries of `from` beyond
`to.length` are ignored. -/
def cloneRules : WRules → WRules → WRules
  | .rnil, _ => .rnil
  | .rcons t ts, .rnil => .rcons t ts
  | .rcons t ts, .rcons f fs => .rcons (cloneRule t f) (cloneRules ts fs)

end

/-- Models `cloneRuleNames(to, from)` including the `if (!to || !from) return;`
guard (`none` models a missing `module`/`rules`); returns the (possibly
mutated) `to`. -/
def cloneRuleNames : Option WRules → Option WRules → Option WRules
  | some ts, some fs => some (cloneRules ts fs)
  | some ts, none => some ts
  | none, _ => none

/-- Models `config.module` as far as `Service` uses it. -/
structure WModule where
  rules : Option WRules
  modRest : Nat

/-- A materialized webpack config object. -/
structure WConf where
  module : Option WModule
  confRest : Nat

/-- Models `config.module && config.module.rules`. -/
def WConf.modRules (c : WConf) : Option WRules :=
  match c.module with
  | some m => m.rules
  | none => none

/-- An entry of `webpackRawConfigFns`: a callback with an optional
return value, a literal object, or a falsy entry (skipped by the code's
`typeof fn === 'function'` / `else if (fn)` tests). -/
inductive RawFn where
  | func (f : WConf → Option WConf)
  | lit (o : WConf)
  | falsy

/-! ## Service state

The mutable fields of a `Service` instance that the claims are about.
Command maps are insertion-ordered key/value lists (JS `Map`). -/

/-- JS `Map.get`. -/
def mapGet {α : Type} : List (String × α) → String → Option α
  | [], _ => none
  | (k2, v) :: rest, k => if k2 = k then some v else mapGet rest k

/-- JS `Map.set`: replaces in place, appends when new. -/
def mapSet {α : Type} : List (String × α) → String → α → List (String × α)
  | [], k, v => [(k, v)]
  | (k2, v2) :: rest, k, v =>
    if k2 = k then (k, v) :: rest else (k2, v2) :: mapSet rest k v

/-- Models `Object.assign(a, b)` on flag-schema objects: keys of `b` override,
new keys are appended in order. -/
def objAssign (a b : Flags) : Flags :=
  b.foldl (fun acc kv => mapSet acc kv.1 kv.2) a

/-- The normalized command module accepted by `registerCommand` (the
string/object and function/module overloads are normalized into one
record; absent pieces are `none`). -/
structure CommandSpec where
  command : String
  description : Option String
  builder : Option Flags
  handler : Option (Argv → JSVal)
  middlewares : Option (List Nat)

/-- What `registerCommand` stores in `registeredCommands`. -/
structure CommandEntry where
  command : String
  handler : Argv → JSVal
  description : Option String
  builder : Flags
  middlewares : List Nat

/-- Models `projectOptions` as far as `init` uses it. -/
structure ProjectOptionsS where
  chainWebpack : Option (ChainC → ChainC)
  configureWebpack : Option RawFn

/-- The `Service` instance state. -/
structure Service where
  cwd : String
  initialized : Bool
  mode : Option String
  projectOptions : ProjectOptionsS
  webpackChainFns : List (ChainC → ChainC)
  webpackRawConfigFns : List RawFn
  registeredCommands : List (String × CommandEntry)
  registeredCommandFlags : List (String × Flags)
  registeredCommandHandlers : List (String × List (Argv → JSVal))
  plugins : List PVal

/-- Models `logger.warn` placeholder handler installed by `registerCommand`
when no handler function was supplied. -/
def emptyHandler (_name : String) : Argv → JSVal := fun _ => JSVal.undef

/-- Models `registerCommand(name, yargsModule)` (Service.js lines 231-269)
after overload normalization. -/
def Service.registerCommand (s : Service) (spec : CommandSpec) : Service :=
  let handler := match spec.handler with
    | some h => h
    | none => emptyHandler spec.command
  let cmdName := getCommandName spec.command
  { s with
    registeredCommands := mapSet s.registeredCommands cmdName
      { command := spec.command
        handler := handler
        description := match spec.description with
          | some d => if d = "" then none else some d
          | none => none
        builder := match spec.builder with
          | some b => b
          | none => []
        middlewares := match spec.middlewares with
          | some m => m
          | none => [] } }

/-- Models `registerCommandFlag(cmdName, flag, handler)` (Service.js lines
218-230): merges the flag schema (`Object.assign`) and appends the
handler. -/
def Service.registerCommandFlag (s : Service) (cmdName : String) (flag : Flags)
    (handler : Argv → JSVal) : Service :=
  let cmdName := getCommandName cmdName
  let flags := objAssign ((mapGet s.registeredCommandFlags cmdName).getD []) flag
  let handlers := ((mapGet s.registeredCommandHandlers cmdName).getD []) ++ [handler]
  { s with
    registeredCommandFlags := mapSet s.registeredCommandFlags cmdName flags
    registeredCommandHandlers := mapSet s.registeredCommandHandlers cmdName handlers }

/-! ## Plugin application (`initPlugin`, `init`; Service.js lines 154-217)

A plugin's `apply(api, projectOptions, options)` only acts on the
service through the whitelisted facade operations of the `Proxy`
(register command, register command flag, add plugin, event bus,
resolvers, read-only accessors).  Its effect is therefore modelled as
the sequence of facade calls it performs; `applySem` maps a plugin id
to that sequence (plugin module bodies are external input, not
repository source). -/

/-- A facade call performed by a plugin against the `PluginAPI` proxy.
`otherCall` covers the calls with no effect on the registries
(`on`/`emit`, the resolvers and the `getX` accessors). -/
inductive ApiCall where
  | registerCommand (spec : CommandSpec)
  | registerCommandFlag (cmdName : String) (flag : Flags) (handler : Argv → JSVal)
  | addPlugin (name : String)
  | otherCall

/-- Models `addPlugin(name, options = {})` (Service.js lines 443-447):
`this._resolvePlugin([name, options])`, pushing the result. -/
def Service.addPlugin (env : String → Option PVal) (s : Service) (name : String) :
    Except String Service :=
  match resolvePluginRef env (PVal.arr2 (PVal.str name) (PVal.obj none false none)) with
  | .error e => .error e
  | .ok p => .ok { s with plugins := s.plugins ++ [p] }

/-- Interpret one facade call on the service state. -/
def interpretCall (env : String → Option PVal) (s : Service) : ApiCall → Except String Service
  | .registerCommand spec => .ok (s.registerCommand spec)
  | .registerCommandFlag c f h => .ok (s.registerCommandFlag c f h)
  | .addPlugin name => Service.addPlugin env s name
  | .otherCall => .ok s

/-- Interpret a plugin's facade-call sequence; a thrown error aborts. -/
def interpretCalls (env : String → Option PVal) : Service → List ApiCall → Except String Service
  | s, [] => .ok s
  | s, c :: rest =>
    match interpretCall env s c with
    | .error e => .error e
    | .ok s2 => interpretCalls env s2 rest

/-- The id a stored plugin descriptor is applied under
(`const {id, apply} = plugin` after the `[plugin, options]` unwrap). -/
def pluginId : PVal → String
  | .arr2 (.obj (some i) _ _) _ => i
  | .obj (some i) _ _ => i
  | _ => ""

/-- Models `initPlugin(plugin)` (Service.js lines 175-217): unwrap
`[plugin, options]`, build the proxy facade, call `apply`. -/
def Service.initPlugin (env : String → Option PVal) (applySem : String → List ApiCall)
    (s : Service) (plugin : PVal) : Except String Service :=
  interpretCalls env s (applySem (pluginId plugin))

/-- Models `this.plugins.forEach(plugin => this.initPlugin(plugin))`: the
iteration range is the plugin list as it was when `forEach` started
(`Array.prototype.forEach` does not visit entries appended during the
walk). -/
def Service.initPlugins (env : String → Option PVal) (applySem : String → List ApiCall) :
    Service → List PVal → Except String Service
  | s, [] => .ok s
  | s, p :: rest =>
    match Service.initPlugin env applySem s p with
    | .error e => .error e
    | .ok s2 => Service.initPlugins env applySem s2 rest

/-- Models `init(mode)` (Service.js lines 154-174). -/
def Service.init (env : String → Option PVal) (applySem : String → List ApiCall)
    (s : Service) (mode : String) : Except String Service :=
  if s.initialized then .ok s
  else
    let s1 := { s with initialized := true, mode := some mode }
    match Service.initPlugins env applySem s1 s1.plugins with
    | .error e => .error e
    | .ok s2 =>
      let s3 := match s2.projectOptions.chainWebpack with
        | some f => { s2 with webpackChainFns := s2.webpackChainFns ++ [f] }
        | none => s2
      let s4 := match s3.projectOptions.configureWebpack with
        | some fn => { s3 with webpackRawConfigFns := s3.webpackRawConfigFns ++ [fn] }
        | none => s3
      .ok s4

/-! ## Command dispatch (`runCommand`; Service.js lines 362-414)

The composite handler built by `runCommand` runs the registered
flag-handlers in order against the parsed argv and then, unless one of
them returned `false`, the primary handler.  Its execution is recorded
as a trace of events. -/

/-- An observable invocation performed by the composite handler. -/
inductive TEvent where
  | flag (i : Nat)
  | primary
deriving DecidableEq, Repr

/-- The `for` loop over `handlers` (Service.js lines 386-398): returns
the indices of the flag-handlers invoked and the final value of `doit`
(initially `true`).  `doit = handler(argv)`; a strict `=== false`
result breaks the loop. -/
def flagLoop (argv : Argv) : List (Argv → JSVal) → Nat → List Nat × JSVal
  | [], _ => ([], JSVal.bool true)
  | h :: rest, i =>
    let d := h argv
    if d = JSVal.bool false then ([i], d)
    else
      let (l, fin) := flagLoop argv rest (i + 1)
      (i :: l, fin)

/-- The composite `handler` closure (Service.js lines 381-405) as an
event trace: flag-handlers in registration order, then
`doit !== false && oHandler(argv)`. -/
def compositeHandler (handlers : Option (List (Argv → JSVal))) (argv : Argv) : List TEvent :=
  let (execd, doit) :=
    match handlers with
    | some hs => flagLoop argv hs 0
    | none => ([], JSVal.bool true)
  execd.map TEvent.flag ++ (if doit = JSVal.bool false then [] else [TEvent.primary])

/-- Models `runCommand(cmd, rawArgs)` (Service.js lines 362-414): fails (logs
and returns) when the command is unknown; otherwise builds the
composite handler and hands it to the CLI parser (external), which
invokes it on the parsed argv.  The model returns the composite
handler's trace function. -/
def Service.runCommand (s : Service) (cmd : String) : Option (Argv → List TEvent) :=
  match mapGet s.registeredCommands cmd with
  | none => none
  | some _ => some (compositeHandler (mapGet s.registeredCommandHandlers cmd))

/-! ## Chainable / final webpack config resolution
(Service.js lines 449-485) -/

/-- Models `resolveChainableWebpackConfig()`: a fresh webpack-chain `Config`
(opaque seed `0`) with every registered chain callback applied in
order. -/
def Service.resolveChainableWebpackConfig (s : Service) : ChainC :=
  s.webpackChainFns.foldl (fun c f => f c) (0 : Nat)

/-- The raw-merge pass (`this.webpackRawConfigFns.forEach`, Service.js
lines 464-475).  `merge` is the external `webpack-merge`; the returned
flag records whether any merge produced a fresh object (JS
`config !== original`). -/
def mergePass (merge : WConf → WConf → WConf) (fns : List RawFn) (cfg : WConf) :
    WConf × Bool :=
  fns.foldl
    (fun acc fn =>
      match fn with
      | .func f =>
        match f acc.1 with
        | some r => (merge acc.1 r, true)
        | none => acc
      | .lit o => (merge acc.1 o, true)
      | .falsy => acc)
    (cfg, false)

/-- The post-merge restoration
`cloneRuleNames(config.module && config.module.rules, original.module && original.module.rules)`
(Service.js lines 480-482), rebuilt functionally. -/
def restoreRuleInfo (post pre : WConf) : WConf :=
  match post.module with
  | some m =>
    match cloneRuleNames m.rules pre.modRules with
    | some ts => { post with module := some { m with rules := some ts } }
    | none => post
  | none => post

/-- The default argument
`chainableConfig = this.resolveChainableWebpackConfig()`. -/
def chainArgOf (s : Service) : Option ChainC → ChainC
  | some c => c
  | none => Service.resolveChainableWebpackConfig s

/-- Models `resolveWebpackConfig(chainableConfig)` (Service.js lines 456-485).
`toConfig` is webpack-chain's materialization (external).  The second
component is the service state after the call (never written by the
method). -/
def Service.resolveWebpackConfig (toConfig : ChainC → WConf)
    (merge : WConf → WConf → WConf) (s : Service) (chainArg : Option ChainC) :
    Except String WConf × Service :=
  let chainableConfig := chainArgOf s chainArg
  if s.initialized = false then
    (.error "Service must call init() before calling resolveWebpackConfig().", s)
  else
    let config := toConfig chainableConfig
    let (merged, changed) := mergePass merge s.webpackRawConfigFns config
    let final := if changed then restoreRuleInfo merged config else merged
    (.ok final, s)

/-! ## Environment loading (`loadEnv`; Service.js lines 46-92) -/

/-- A value bound in `process.env` as far as the `=== null` test can
see it: a string, or literally `null` (an unset variable is `none` at
lookup). -/
inductive EnvVal where
  | vstr (s : String)
  | vnull
deriving DecidableEq, Repr

/-- Models `process.env` as a key/value store. -/
def Env := List (String × EnvVal)

/-- Models `Object.assign(defaultEnv, localEnv)` on parsed dotenv maps. -/
def assignStr (a b : List (String × String)) : List (String × String) :=
  b.foldl (fun acc kv => mapSet acc kv.1 kv.2) a

/-- One step of the mode-default loop: assign `defaultNodeEnv` to the
variable only when its current value is strictly `null`
(`process.env[k] === null`). -/
def modeAssign (defaultNodeEnv : String) (e : Env) (k : String) : Env :=
  if mapGet e k = some EnvVal.vnull then mapSet e k (EnvVal.vstr defaultNodeEnv) else e

/-- Models `loadEnv(mode)` (Service.js lines 46-92).  `envFound` models
`findExisting` locating a mode env file; `defaultEnv`/`localEnv` the
parsed dotenv contents (`none` = missing `.local` file).  Variables
already present (`process.env.hasOwnProperty`) are never overwritten;
afterwards, for a truthy mode, `NODE_ENV`/`BABEL_ENV` are assigned the
mode default only when their current value is strictly `null`. -/
def loadEnv (envFound : Bool) (defaultEnv : List (String × String))
    (localEnv : Option (List (String × String))) (mode : String) (env : Env) : Env :=
  if !envFound then env
  else
    let envObj := assignStr defaultEnv (localEnv.getD [])
    let env1 := envObj.foldl
      (fun e kv => if (mapGet e kv.1).isSome then e else mapSet e kv.1 (EnvVal.vstr kv.2))
      env
    if mode ≠ "" then
      let defaultNodeEnv := if mode = "production" then mode else "development"
      ["NODE_ENV", "BABEL_ENV"].foldl (modeAssign defaultNodeEnv) env1
    else env1

/-! ## Project options (`loadProjectOptions`; Service.js lines 279-361)

Configuration values are JSON-like JS values; `defaultsDeep` is
`lodash.defaultsdeep` (external collaborator), modelled from its
documented semantics: the first argument's defined values win, plain
objects are merged recursively, source-only keys are appended, and
arrays are merged index-wise (destination elements win at their
indices, longer-source extra elements are kept). -/

mutual

/-- A JSON-like configuration value. `undef` is the JS `undefined`
stored at a key; `arr` covers the string arrays appearing in the
configs the claims touch. -/
inductive JVal where
  | undef
  | jbool (b : Bool)
  | num (n : Nat)
  | str (s : String)
  | arr (elems : List String)
  | obj (fields : JFields)

/-- Ordered fields of a config object. -/
inductive JFields where
  | fnil
  | fcons (k : String) (v : JVal) (rest : JFields)

end

/-- Property lookup in an object's fields. -/
def flookup (k : String) : JFields → Option JVal
  | .fnil => none
  | .fcons k2 v rest => if k2 = k then some v else flookup k rest

/-- Property assignment: updates in place, appends when new. -/
def fset : JFields → String → JVal → JFields
  | .fnil, k, v => .fcons k v .fnil
  | .fcons k2 v2 rest, k, v =>
    if k2 = k then .fcons k v rest else .fcons k2 v2 (fset rest k v)

/-- Whether a key is present. -/
def keyMem (k : String) : JFields → Bool
  | .fnil => false
  | .fcons k2 _ rest => k2 = k || keyMem k rest

/-- Field-list concatenation. -/
def fappend : JFields → JFields → JFields
  | .fnil, b => b
  | .fcons k v rest, b => .fcons k v (fappend rest b)

/-- The fields of the merge source whose keys are absent from the
destination (appended by `defaultsDeep`, in source order). -/
def extraFields (d : JFields) : JFields → JFields
  | .fnil => .fnil
  | .fcons k v rest =>
    if keyMem k d then extraFields d rest else .fcons k v (extraFields d rest)

/-- Models `v[k]` when `v` is an object, else `undefined`. -/
def jlookupV (k : String) : JVal → Option JVal
  | .obj fs => flookup k fs
  | _ => none

/-- JS truthiness of a config value. -/
def jtruthy : JVal → Bool
  | .undef => false
  | .jbool b => b
  | .num n => !(n = 0)
  | .str s => !(s = "")
  | .arr _ => true
  | .obj _ => true

/-- Truthiness of a possibly-absent value. -/
def jtruthyO : Option JVal → Bool
  | some v => jtruthy v
  | none => false

/-- Models `typeof v === 'object'` for a present config value. -/
def jIsObj : JVal → Bool
  | .obj _ => true
  | _ => false

/-- A defined primitive value (kept as-is by `defaultsDeep`). -/
def jIsPrim : JVal → Bool
  | .jbool _ => true
  | .num _ => true
  | .str _ => true
  | _ => false

mutual

/-- Models `defaultsDeep(dst, src)` (lodash): `dst` wins where defined,
objects merge recursively, `src`-only keys are appended, and two
arrays merge index-wise (`_.defaultsDeep({k: ['a']}, {k: ['x', 'y']})`
gives `{k: ['a', 'y']}`). -/
def defaultsDeep : JVal → JVal → JVal
  | .undef, s => s
  | .obj df, .obj sf => .obj (fappend (mergeFields df (.obj sf)) (extraFields df sf))
  | .arr a, .arr b => .arr (a ++ b.drop a.length)
  | d, _ => d

/-- The destination fields of a `defaultsDeep` merge, each defaulted
against the source's value at the same key. -/
def mergeFields : JFields → JVal → JFields
  | .fnil, _ => .fnil
  | .fcons k v rest, s =>
    .fcons k
      (match jlookupV k s with
       | some sv => defaultsDeep v sv
       | none => v)
      (mergeFields rest s)

end

/-- Models `config[k]` on a config root. -/
def jget (v : JVal) (k : String) : Option JVal :=
  match v with
  | .obj fs => flookup k fs
  | _ => none

/-- Models `config[k] = x` on a config root. -/
def jset (v : JVal) (k : String) (x : JVal) : JVal :=
  match v with
  | .obj fs => .obj (fset fs k x)
  | v => v

/-- The value reached from a config by following a path of property
keys (`config[k1][k2]...`), descending through objects. -/
def jgetPath : JVal → List String → Option JVal
  | v, [] => some v
  | v, k :: rest => (jlookupV k v).bind fun v2 => jgetPath v2 rest

/-- The field-by-field part of `Object.assign(t, s)`. -/
def assignFields (tf : JFields) : JFields → JFields
  | .fnil => tf
  | .fcons k v rest => assignFields (fset tf k v) rest

/-- Models `Object.assign(t, s)` on config objects. -/
def jObjAssign (t s : JVal) : JVal :=
  match t, s with
  | .obj tf, .obj sf => .obj (assignFields tf sf)
  | t, _ => t

/-- Models `/^https?:/.test(val)` -/
def isHttpUrl (s : String) : Bool :=
  match s.data with
  | 'h' :: 't' :: 't' :: 'p' :: ':' :: _ => true
  | 'h' :: 't' :: 't' :: 'p' :: 's' :: ':' :: _ => true
  | _ => false

/-- Models `val.replace(/^([^/.])/, '/$1')`: prepend a slash when the first
character is neither `/` nor `.`. -/
def prependSlashNonDot (s : String) : String :=
  match s.data with
  | [] => s
  | c :: _ => if c = '/' ∨ c = '.' then s else String.mk ('/' :: s.data)

/-- Models `val.replace(/([^/])$/, '$1/')`: append a slash when the last
character is not `/` (no-op on the empty string). -/
def appendSlashStr (s : String) : String :=
  match s.data.getLast? with
  | none => s
  | some c => if c = '/' then s else String.mk (s.data ++ ['/'])

/-- The string transformation of `ensureSlash` (Service.js lines
507-515). -/
def ensureSlashStr (s : String) : String :=
  appendSlashStr (if isHttpUrl s then s else prependSlashNonDot s)

/-- Models `ensureSlash(config, key)`: only string values are rewritten. -/
def ensureSlashKey (config : JVal) (key : String) : JVal :=
  match jget config key with
  | some (.str s) => jset config key (.str (ensureSlashStr s))
  | _ => config

/-- Models `val.replace(/^\.\//, '')`: drop a leading `./`. -/
def stripDotSlashStr (s : String) : String :=
  match s.data with
  | '.' :: '/' :: rest => String.mk rest
  | _ => s

/-- The complete publicPath normalization performed by
`loadProjectOptions` on a string value: `ensureSlash` followed by the
leading-`./` strip. -/
def pubNormStr (s : String) : String :=
  stripDotSlashStr (ensureSlashStr s)

/-- Models `config.publicPath = config.publicPath.replace(/^\.\//, '')`
(Service.js lines 356-358). -/
def stripPublicPathDotSlash (config : JVal) : JVal :=
  match jget config "publicPath" with
  | some (.str s) => jset config "publicPath" (.str (stripDotSlashStr s))
  | _ => config

/-- Models `removeSlash(config, key)` (Service.js lines 502-506):
`replace(/\/$/g, '')` drops the single trailing slash if present. -/
def removeSlashKey (config : JVal) (key : String) : JVal :=
  match jget config key with
  | some (.str s) =>
    jset config key
      (.str (match s.data.getLast? with
             | some '/' => String.mk s.data.dropLast
             | _ => s))
  | _ => config

/-- The postcss attachment step (Service.js lines 326-336):
`if (!(config.css && config.css.postcss)) config.css = Object.assign({postcss}, config.css || {})`. -/
def cssStep (postcssFound : Option JVal) (config : JVal) : JVal :=
  let cssv := jget config "css"
  let postcssCur := match cssv with
    | some c => jlookupV "postcss" c
    | none => none
  if jtruthyO cssv && jtruthyO postcssCur then config
  else
    let postcssVal := match postcssFound with
      | some v => v
      | none => JVal.undef
    let cssOrEmpty : JVal := match cssv with
      | some c => if jtruthy c then c else .obj .fnil
      | none => .obj .fnil
    jset config "css" (jObjAssign (.obj (.fcons "postcss" postcssVal .fnil)) cssOrEmpty)

/-- The hard-coded browserslist fallback (Service.js lines 342-351). -/
def defaultBrowserslist : JVal :=
  .arr ["> 1.2% in cn", "last 2 versions", "iOS >=8", "android>4.4",
        "not bb>0", "not ff>0", "not ie>0", "not ie_mob>0"]

/-- The browserslist attachment step (Service.js lines 338-352). -/
def browserslistStep (found : Option JVal) (config : JVal) : JVal :=
  if jtruthyO (jget config "browserslist") then config
  else
    jset config "browserslist"
      (match found with
       | some v => if jtruthy v then v else defaultBrowserslist
       | none => defaultBrowserslist)

/-- The tail of `loadProjectOptions` after the config merge
(Service.js lines 324-360): postcss and browserslist attachment, then
publicPath / outputDir normalization. -/
def postProcess (postcssFound browserslistFound : Option JVal) (config : JVal) : JVal :=
  removeSlashKey
    (stripPublicPathDotSlash
      (ensureSlashKey
        (browserslistStep browserslistFound (cssStep postcssFound config))
        "publicPath"))
    "outputDir"

/-- Models `loadProjectOptions(configFile)` (Service.js lines 279-361).
`validate` is the external schema validation; `defaultConfig` the
built-in defaults from `lib/options.js`; `inlineOptions` the
constructor-supplied `_initProjectOptions`; `found` the config object
discovered (explicit file or cosmiconfig search), `none` when nothing
usable was found; `postcssFound`/`browserslistFound` the cosmiconfig
lookups for the auxiliary tools.  The boolean result records whether
the missing-config warning was logged.  A validation failure throws a
fatal `SError`. -/
def loadProjectOptions (validate : JVal → Bool) (defaultConfig inlineOptions : JVal)
    (found : Option JVal) (postcssFound browserslistFound : Option JVal) :
    Except String (JVal × Bool) :=
  let config := defaultsDeep inlineOptions defaultConfig
  match found with
  | some fc =>
    if jIsObj fc then
      if validate fc then
        .ok (postProcess postcssFound browserslistFound (defaultsDeep fc config), false)
      else .error "config validation failed"
    else .ok (postProcess postcssFound browserslistFound (defaultsDeep fc config), false)
  | none => .ok (postProcess postcssFound browserslistFound config, true)

/-- The merged configuration layer built by `loadProjectOptions`
before its post-processing tail: the built-in defaults under the
inline options, with the discovered file config (when any) merged on
top. -/
def mergedConfig (defaultConfig inlineOptions : JVal) (found : Option JVal) : JVal :=
  let config := defaultsDeep inlineOptions defaultConfig
  match found with
  | some fc => defaultsDeep fc config
  | none => config

/-! ## Auxiliary vocabulary for stating the claims -/

/-- A CLI argument group of a command string: `[options]` or
`<entry>`. -/
inductive ArgGroup where
  | bracket (content : List Char)
  | angle (content : List Char)
deriving DecidableEq

/-- The characters between the delimiters of a group. -/
def ArgGroup.content : ArgGroup → List Char
  | .bracket c => c
  | .angle c => c

/-- A rendered argument group, delimiters included. -/
def renderGroup : ArgGroup → List Char
  | .bracket c => '[' :: (c ++ [']'])
  | .angle c => '<' :: (c ++ ['>'])

/-- Argument groups rendered and separated by single spaces. -/
def renderGroups : List ArgGroup → List Char
  | [] => []
  | [g] => renderGroup g
  | g :: gs => renderGroup g ++ ' ' :: renderGroups gs

/-- One of the four delimiter characters of argument groups. -/
def isSpecial (c : Char) : Bool :=
  c = '[' ∨ c = ']' ∨ c = '<' ∨ c = '>'

/-- No two adjacent whitespace characters (i.e. `collapseWs` is the
identity on such a string). -/
def noDoubleWs : List Char → Bool
  | [] => true
  | [_] => true
  | c :: d :: rest => !(isWs c && isWs d) && noDoubleWs (d :: rest)

/-- A rule found by walking `path`: each step indexes into the current
rule array; non-final steps descend into the rule's `oneOf` children. -/
def ruleAt : WRules → List Nat → Option WRule
  | _, [] => none
  | rs, [i] => rs.get? i
  | rs, i :: rest =>
    (rs.get? i).bind fun r => r.oneOf.bind fun children => ruleAt children rest

/-- Models `ruleAt` through a whole config (`config.module.rules`). -/
def confRuleAt (c : WConf) (path : List Nat) : Option WRule :=
  match c.modRules with
  | some rs => ruleAt rs path
  | none => none

/-- The `__ruleNames` annotations found by walking `path` through a
config. -/
def ruleNamesAt (c : WConf) (path : List Nat) : Option (Option (List String)) :=
  (confRuleAt c path).map WRule.names

/-- A loaded module value that fails the
`typeof plugin === 'object' && typeof plugin.apply === 'function'`
test (after the `.default` unwrap): it lacks a callable `apply`. -/
def loadedPluginInvalid (m : PVal) : Bool :=
  match unwrapDefault m with
  | .obj _ true _ => false
  | _ => true

/-! ## Concrete instances used by the witnesses -/

/-- A freshly constructed service with empty registries. -/
def svcBase : Service :=
  { cwd := "/cwd"
    initialized := false
    mode := none
    projectOptions := { chainWebpack := none, configureWebpack := none }
    webpackChainFns := []
    webpackRawConfigFns := []
    registeredCommands := []
    registeredCommandFlags := []
    registeredCommandHandlers := []
    plugins := [] }

/-- A registered `build` command entry. -/
def entryBuild : CommandEntry :=
  { command := "build"
    handler := fun _ => JSVal.undef
    description := none
    builder := []
    middlewares := [] }

/-- A service with a `build` command and one flag-handler registered. -/
def svcC1 : Service :=
  { svcBase with
    registeredCommands := [("build", entryBuild)]
    registeredCommandHandlers := [("build", [fun _ => JSVal.bool true])] }

/-- Models `svcBase` after a successful first `init("development")`. -/
def svcInited : Service :=
  { svcBase with initialized := true, mode := some "development" }

/-- An empty materialized webpack config. -/
def wconfEmpty : WConf := { module := none, confRest := 0 }

/-- A pre-merge config with one named rule. -/
def wconfNamed : WConf :=
  { module := some { rules := some (.rcons (.mk (some ["r1"]) 0 none) .rnil), modRest := 0 }
    confRest := 0 }

/-- A post-merge config whose rule lost its `__ruleNames`. -/
def wconfStripped : WConf :=
  { module := some { rules := some (.rcons (.mk none 1 none) .rnil), modRest := 0 }
    confRest := 0 }

/-- An initialized service contributing `wconfStripped` as a raw merge
literal. -/
def svcC8 : Service :=
  { svcBase with initialized := true, webpackRawConfigFns := [RawFn.lit wconfStripped] }

/-- A chain materialization producing `wconfNamed`. -/
def toConfigC8 : ChainC → WConf := fun _ => wconfNamed

/-- The publicPath of a `loadProjectOptions` result. -/
def publicPathOf (r : Except String (JVal × Bool)) : Option JVal :=
  match r with
  | .ok (c, _) => jget c "publicPath"
  | .error _ => none

/-! # Theorems

Helper lemmas first, then one theorem per claim (with its witness or
counterexample). -/

theorem matchA_append_clean (xs ys : List Char)
    (h : ∀ c ∈ xs, c ≠ '[' ∧ c ≠ ']') : matchA (xs ++ ys) = matchA ys := by
  induction xs with
  | nil => rfl
  | cons c xs ih =>
    have hc := h c (List.mem_cons_self c xs)
    simp only [List.cons_append, matchA, if_neg hc.2, if_neg hc.1]
    exact ih fun d hd => h d (List.mem_cons_of_mem c hd)

theorem matchB_append_clean (xs ys : List Char)
    (h : ∀ c ∈ xs, c ≠ '<' ∧ c ≠ '>') : matchB (xs ++ ys) = matchB ys := by
  induction xs with
  | nil => rfl
  | cons c xs ih =>
    have hc := h c (List.mem_cons_self c xs)
    simp only [List.cons_append, matchB, if_neg hc.2, if_neg hc.1]
    exact ih fun d hd => h d (List.mem_cons_of_mem c hd)

theorem content_clean_brackets {g : ArgGroup} (h : ∀ c ∈ g.content, isSpecial c = false) :
    ∀ c ∈ g.content, c ≠ '[' ∧ c ≠ ']' := by
  intro c hc
  have := h c hc
  simp only [isSpecial, decide_eq_false_iff_not, not_or] at this
  exact ⟨this.1, this.2.1⟩

theorem content_clean_angles {g : ArgGroup} (h : ∀ c ∈ g.content, isSpecial c = false) :
    ∀ c ∈ g.content, c ≠ '<' ∧ c ≠ '>' := by
  intro c hc
  have := h c hc
  simp only [isSpecial, decide_eq_false_iff_not, not_or] at this
  exact ⟨this.2.2.1, this.2.2.2⟩

theorem matchA_renderGroups :
    ∀ (groups : List ArgGroup),
      (∀ g ∈ groups, ∀ c ∈ g.content, isSpecial c = false) →
      matchA (renderGroups groups) = false
  | [], _ => rfl
  | [g], h => by
    have hg := h g (List.mem_singleton_self g)
    cases g with
    | bracket c => simp [renderGroups, renderGroup, matchA]
    | angle c =>
      have : matchA (c ++ ['>']) = matchA ['>'] :=
        matchA_append_clean c ['>'] (content_clean_brackets hg)
      simp [renderGroups, renderGroup, matchA, this]
  | g :: g2 :: gs, h => by
    have hg := h g (List.mem_cons_self g (g2 :: gs))
    have htail : matchA (renderGroups (g2 :: gs)) = false :=
      matchA_renderGroups (g2 :: gs) fun g3 hg3 => h g3 (List.mem_cons_of_mem g hg3)
    cases g with
    | bracket c => simp [renderGroups, renderGroup, matchA]
    | angle c =>
      have hskip : matchA (c ++ '>' :: ' ' :: renderGroups (g2 :: gs))
          = matchA ('>' :: ' ' :: renderGroups (g2 :: gs)) :=
        matchA_append_clean c _ (content_clean_brackets hg)
      simp [renderGroups, renderGroup, matchA, hskip, htail]

theorem matchB_renderGroups :
    ∀ (groups : List ArgGroup),
      (∀ g ∈ groups, ∀ c ∈ g.content, isSpecial c = false) →
      matchB (renderGroups groups) = false
  | [], _ => rfl
  | [g], h => by
    have hg := h g (List.mem_singleton_self g)
    cases g with
    | angle c => simp [renderGroups, renderGroup, matchB]
    | bracket c =>
      have : matchB (c ++ [']']) = matchB [']'] :=
        matchB_append_clean c [']'] (content_clean_angles hg)
      simp [renderGroups, renderGroup, matchB, this]
  | g :: g2 :: gs, h => by
    have hg := h g (List.mem_cons_self g (g2 :: gs))
    have htail : matchB (renderGroups (g2 :: gs)) = false :=
      matchB_renderGroups (g2 :: gs) fun g3 hg3 => h g3 (List.mem_cons_of_mem g hg3)
    cases g with
    | angle c => simp [renderGroups, renderGroup, matchB]
    | bracket c =>
      have hskip : matchB (c ++ ']' :: ' ' :: renderGroups (g2 :: gs))
          = matchB (']' :: ' ' :: renderGroups (g2 :: gs)) :=
        matchB_append_clean c _ (content_clean_angles hg)
      simp [renderGroups, renderGroup, matchB, hskip, htail]

theorem splitFirst_token (tok rest : List Char)
    (htok : ∀ c ∈ tok, isWs c = false)
    (hA : matchA rest = false) (hB : matchB rest = false) :
    splitFirst (tok ++ ' ' :: rest) = tok := by
  induction tok with
  | nil =>
    simp only [List.nil_append, splitFirst]
    rw [if_pos]
    refine ⟨by decide, hA, hB⟩
  | cons c tok ih =>
    have hc := htok c (List.mem_cons_self c tok)
    simp only [List.cons_append, splitFirst]
    rw [if_neg]
    · show c :: splitFirst (tok ++ ' ' :: rest) = c :: tok
      rw [ih fun d hd => htok d (List.mem_cons_of_mem c hd)]
    · intro hcontra
      rw [hc] at hcontra
      exact Bool.false_ne_true hcontra.1

theorem noDoubleWs_cons_nonws (a : Char) (l : List Char) (h : isWs a = false) :
    noDoubleWs (a :: l) = noDoubleWs l := by
  cases l with
  | nil => rfl
  | cons b t => simp [noDoubleWs, h]

theorem noDoubleWs_append_nonws (xs ys : List Char)
    (h : ∀ c ∈ xs, isWs c = false) : noDoubleWs (xs ++ ys) = noDoubleWs ys := by
  induction xs with
  | nil => rfl
  | cons c xs ih =>
    rw [List.cons_append, noDoubleWs_cons_nonws c _ (h c (List.mem_cons_self c xs))]
    exact ih fun d hd => h d (List.mem_cons_of_mem c hd)

theorem noDoubleWs_append_close :
    ∀ (cs : List Char) (cl : Char) (ys : List Char), isWs cl = false →
      noDoubleWs cs = true → noDoubleWs (cs ++ cl :: ys) = noDoubleWs ys
  | [], cl, ys, hcl, _ => noDoubleWs_cons_nonws cl ys hcl
  | [a], cl, ys, hcl, _ => by
    simp only [List.cons_append, List.nil_append, noDoubleWs, hcl, Bool.and_false,
      Bool.not_false, Bool.true_and]
    exact noDoubleWs_cons_nonws cl ys hcl
  | a :: b :: cs, cl, ys, hcl, hnd => by
    simp only [noDoubleWs, Bool.and_eq_true, Bool.not_eq_true'] at hnd
    simp only [List.cons_append, noDoubleWs, hnd.1, Bool.not_false, Bool.true_and]
    exact noDoubleWs_append_close (b :: cs) cl ys hcl hnd.2

theorem renderGroups_head_nonws :
    ∀ (groups : List ArgGroup) (c : Char) (t : List Char),
      renderGroups groups = c :: t → isWs c = false
  | [], c, t, h => by simp [renderGroups] at h
  | [g], c, t, h => by
    cases g with
    | bracket cs =>
      simp only [renderGroups, renderGroup] at h
      injection h with h1 _
      rw [← h1]
      decide
    | angle cs =>
      simp only [renderGroups, renderGroup] at h
      injection h with h1 _
      rw [← h1]
      decide
  | g :: g2 :: gs, c, t, h => by
    cases g with
    | bracket cs =>
      simp only [renderGroups, renderGroup, List.cons_append] at h
      injection h with h1 _
      rw [← h1]
      decide
    | angle cs =>
      simp only [renderGroups, renderGroup, List.cons_append] at h
      injection h with h1 _
      rw [← h1]
      decide

theorem noDoubleWs_space_cons (l : List Char)
    (hhead : ∀ c t, l = c :: t → isWs c = false) (hl : noDoubleWs l = true) :
    noDoubleWs (' ' :: l) = true := by
  cases l with
  | nil => rfl
  | cons c t =>
    have := hhead c t rfl
    simp [noDoubleWs, this] at hl ⊢
    exact hl

theorem noDoubleWs_renderGroups :
    ∀ (groups : List ArgGroup),
      (∀ g ∈ groups, noDoubleWs g.content = true) →
      noDoubleWs (renderGroups groups) = true
  | [], _ => rfl
  | [g], h => by
    have hg := h g (List.mem_singleton_self g)
    cases g with
    | bracket cs =>
      show noDoubleWs ('[' :: (cs ++ [']'])) = true
      rw [noDoubleWs_cons_nonws _ _ (by decide),
        show cs ++ [']'] = cs ++ ']' :: [] from rfl,
        noDoubleWs_append_close cs ']' [] (by decide) hg]
      rfl
    | angle cs =>
      show noDoubleWs ('<' :: (cs ++ ['>'])) = true
      rw [noDoubleWs_cons_nonws _ _ (by decide),
        show cs ++ ['>'] = cs ++ '>' :: [] from rfl,
        noDoubleWs_append_close cs '>' [] (by decide) hg]
      rfl
  | g :: g2 :: gs, h => by
    have hg := h g (List.mem_cons_self g (g2 :: gs))
    have htail : noDoubleWs (renderGroups (g2 :: gs)) = true :=
      noDoubleWs_renderGroups (g2 :: gs) fun g3 hg3 => h g3 (List.mem_cons_of_mem g hg3)
    have hsp : noDoubleWs (' ' :: renderGroups (g2 :: gs)) = true :=
      noDoubleWs_space_cons _ (fun c t hct => renderGroups_head_nonws (g2 :: gs) c t hct) htail
    cases g with
    | bracket cs =>
      show noDoubleWs ('[' :: (cs ++ [']']) ++ ' ' :: renderGroups (g2 :: gs)) = true
      rw [List.cons_append, List.append_assoc, List.singleton_append,
        noDoubleWs_cons_nonws _ _ (by decide),
        noDoubleWs_append_close cs ']' _ (by decide) hg]
      exact hsp
    | angle cs =>
      show noDoubleWs ('<' :: (cs ++ ['>']) ++ ' ' :: renderGroups (g2 :: gs)) = true
      rw [List.cons_append, List.append_assoc, List.singleton_append,
        noDoubleWs_cons_nonws _ _ (by decide),
        noDoubleWs_append_close cs '>' _ (by decide) hg]
      exact hsp

theorem collapseWs_fix :
    ∀ (l : List Char), noDoubleWs l = true → collapseWs l = l
  | [], _ => by simp [collapseWs]
  | [c], _ => by simp [collapseWs]
  | c :: d :: rest, h => by
    simp only [noDoubleWs, Bool.and_eq_true, Bool.not_eq_true'] at h
    rw [collapseWs]
    rw [if_neg]
    · rw [collapseWs_fix (d :: rest) h.2]
    · intro hcontra
      rw [hcontra.1, hcontra.2] at h
      simp at h

theorem dropWhile_nonws (l : List Char) (h : ∀ c ∈ l, isWs c = false) :
    l.dropWhile isWs = l := by
  cases l with
  | nil => rfl
  | cons c t =>
    rw [List.dropWhile_cons, if_neg]
    simp [h c (List.mem_cons_self c t)]

theorem trimChars_nonws (l : List Char) (h : ∀ c ∈ l, isWs c = false) :
    trimChars l = l := by
  unfold trimChars
  rw [dropWhile_nonws l h, dropWhile_nonws l.reverse (fun c hc => h c (List.mem_reverse.mp hc)),
    List.reverse_reverse]

theorem collapseWs_append_nonws :
    ∀ (tok rest : List Char), (∀ c ∈ tok, isWs c = false) →
      collapseWs (tok ++ rest) = tok ++ collapseWs rest
  | [], rest, _ => rfl
  | c :: tok, rest, h => by
    have hc := h c (List.mem_cons_self c tok)
    cases htr : tok ++ rest with
    | nil =>
      obtain ⟨h1, h2⟩ := List.append_eq_nil.mp htr
      subst h1
      subst h2
      simp [collapseWs]
    | cons d r2 =>
      rw [List.cons_append, htr, collapseWs,
        if_neg (by intro hcontra; rw [hc] at hcontra; exact Bool.false_ne_true hcontra.1),
        ← htr,
        collapseWs_append_nonws tok rest fun x hx => h x (List.mem_cons_of_mem c hx)]
      rfl

theorem skipWsRun_fix (l : List Char) (hl : noDoubleWs l = true)
    (hhead : ∀ c t, l = c :: t → isWs c = false) :
    skipWsRun l = l := by
  cases l with
  | nil => simp [skipWsRun]
  | cons c t =>
    rw [skipWsRun,
      if_neg (by rw [hhead c t rfl]; exact Bool.false_ne_true)]
    exact collapseWs_fix (c :: t) hl

/-- C5: for a command string made of a whitespace-free head token
followed by bracket / angle-bracket argument groups (no nested
delimiters, no doubled whitespace inside a group), `getCommandName`
returns exactly the head token — internal whitespace of the groups is
not treated as a separator — whether the token and the groups are
separated by a single space or by duplicate whitespace (which is
collapsed first). -/
theorem c5_getCommandName_normalizes (tok : List Char) (groups : List ArgGroup)
    (htok : ∀ c ∈ tok, isWs c = false)
    (hspec : ∀ g ∈ groups, ∀ c ∈ g.content, isSpecial c = false)
    (hnd : ∀ g ∈ groups, noDoubleWs g.content = true) :
    getCommandName ⟨tok ++ ' ' :: renderGroups groups⟩ = ⟨tok⟩
    ∧ getCommandName ⟨tok ++ ' ' :: ' ' :: renderGroups groups⟩ = ⟨tok⟩ := by
  have hsplit : splitFirst (tok ++ ' ' :: renderGroups groups) = tok :=
    splitFirst_token tok _ htok (matchA_renderGroups groups hspec)
      (matchB_renderGroups groups hspec)
  constructor
  · have hfull : noDoubleWs (tok ++ ' ' :: renderGroups groups) = true := by
      rw [noDoubleWs_append_nonws tok _ htok]
      exact noDoubleWs_space_cons _
        (fun c t hct => renderGroups_head_nonws groups c t hct)
        (noDoubleWs_renderGroups groups hnd)
    show String.mk (getCommandNameL (tok ++ ' ' :: renderGroups groups)) = String.mk tok
    unfold getCommandNameL
    rw [collapseWs_fix _ hfull, hsplit, trimChars_nonws tok htok]
  · have hcol2 : collapseWs (tok ++ ' ' :: ' ' :: renderGroups groups)
        = tok ++ ' ' :: renderGroups groups := by
      rw [collapseWs_append_nonws tok _ htok, collapseWs,
        if_pos ⟨by decide, by decide⟩,
        skipWsRun_fix _ (noDoubleWs_renderGroups groups hnd)
          (fun c t hct => renderGroups_head_nonws groups c t hct)]
    show String.mk (getCommandNameL (tok ++ ' ' :: ' ' :: renderGroups groups)) = String.mk tok
    unfold getCommandNameL
    rw [hcol2, hsplit, trimChars_nonws tok htok]

/-- Witness for C5 at `"build <entry> [options]"`. -/
theorem c5_getCommandName_normalizes_witness :
    getCommandName
        ⟨['b', 'u', 'i', 'l', 'd'] ++ ' ' ::
          renderGroups [ArgGroup.angle ['e', 'n', 't', 'r', 'y'],
            ArgGroup.bracket ['o', 'p', 't', 'i', 'o', 'n', 's']]⟩
      = ⟨['b', 'u', 'i', 'l', 'd']⟩ :=
  (c5_getCommandName_normalizes ['b', 'u', 'i', 'l', 'd']
    [ArgGroup.angle ['e', 'n', 't', 'r', 'y'], ArgGroup.bracket ['o', 'p', 't', 'i', 'o', 'n', 's']]
    (by decide) (by decide) (by decide)).1

/-! ## C1: flag-handler composition in `runCommand` -/

theorem flagLoop_all_nonfalse (argv : Argv) :
    ∀ (hs : List (Argv → JSVal)) (i : Nat),
      (∀ h ∈ hs, h argv ≠ JSVal.bool false) →
      (flagLoop argv hs i).1 = List.range' i hs.length
        ∧ (flagLoop argv hs i).2 ≠ JSVal.bool false
  | [], i, _ => by simp [flagLoop, List.range']
  | h :: rest, i, hall => by
    have hh := hall h (List.mem_cons_self h rest)
    have ih := flagLoop_all_nonfalse argv rest (i + 1)
      fun g hg => hall g (List.mem_cons_of_mem h hg)
    simp only [flagLoop, if_neg hh]
    constructor
    · simp only [List.length_cons, List.range'_succ i rest.length 1]
      exact congrArg (List.cons i) ih.1
    · exact ih.2

theorem flagLoop_break (argv : Argv) :
    ∀ (hs : List (Argv → JSVal)) (i0 : Nat) (h : Argv → JSVal) (i : Nat),
      hs.get? i0 = some h → h argv = JSVal.bool false →
      (∀ j hj, j < i0 → hs.get? j = some hj → hj argv ≠ JSVal.bool false) →
      flagLoop argv hs i = (List.range' i (i0 + 1), JSVal.bool false)
  | [], i0, h, i, hget, _, _ => by simp [List.get?] at hget
  | g :: rest, 0, h, i, hget, hfalse, _ => by
    simp only [List.get?] at hget
    cases hget
    simp [flagLoop, hfalse, List.range'_succ i 0 1]
  | g :: rest, i0 + 1, h, i, hget, hfalse, hprev => by
    simp only [List.get?] at hget
    have hg : g argv ≠ JSVal.bool false :=
      hprev 0 g (Nat.succ_pos i0) rfl
    have ih := flagLoop_break argv rest i0 h (i + 1) hget hfalse
      fun j hj hji hjget => hprev (j + 1) hj (Nat.succ_lt_succ hji) hjget
    simp only [flagLoop, if_neg hg, ih, List.range'_succ i (i0 + 1) 1]

/-- C1: for a command registered with a flag-handler list, `runCommand`
dispatches the composite handler; its trace runs the flag-handlers in
registration order, and (a) when none of them returns `false` the
primary handler runs exactly once, after all of them, while (b) when
the handler at index `i0` is the first to return `false`, execution
stops there and the primary handler never runs. -/
theorem c1_runCommand_flag_shortcircuit (s : Service) (cmd : String)
    (entry : CommandEntry) (hs : List (Argv → JSVal)) (argv : Argv)
    (hcmd : mapGet s.registeredCommands cmd = some entry)
    (hhs : mapGet s.registeredCommandHandlers cmd = some hs) :
    Service.runCommand s cmd = some (compositeHandler (some hs))
    ∧ ((∀ h ∈ hs, h argv ≠ JSVal.bool false) →
        compositeHandler (some hs) argv
          = (List.range hs.length).map TEvent.flag ++ [TEvent.primary])
    ∧ (∀ i0 h, hs.get? i0 = some h → h argv = JSVal.bool false →
        (∀ j hj, j < i0 → hs.get? j = some hj → hj argv ≠ JSVal.bool false) →
        compositeHandler (some hs) argv = (List.range (i0 + 1)).map TEvent.flag) := by
  refine ⟨by simp [Service.runCommand, hcmd, hhs], fun hall => ?_, fun i0 h hget hfalse hprev => ?_⟩
  · have hl := flagLoop_all_nonfalse argv hs 0 hall
    simp only [compositeHandler]
    rw [if_neg hl.2, hl.1, List.range_eq_range' hs.length]
  · have hl := flagLoop_break argv hs i0 h 0 hget hfalse hprev
    simp only [compositeHandler, hl]
    simp [List.range_eq_range' (i0 + 1)]

/-- Witness for C1: one flag-handler returning `true`, so the trace is
that handler followed by the primary handler. -/
theorem c1_runCommand_flag_shortcircuit_witness :
    compositeHandler (some [fun _ => JSVal.bool true]) (0 : Nat)
      = (List.range 1).map TEvent.flag ++ [TEvent.primary] :=
  (c1_runCommand_flag_shortcircuit svcC1 "build" entryBuild
      [fun _ => JSVal.bool true] (0 : Nat) rfl rfl).2.1
    (by intro h hh; rw [List.mem_singleton] at hh; subst hh; simp)

/-! ## C2: `init` is idempotent -/

theorem interpretCall_initialized (env : String → Option PVal) (s t : Service)
    (c : ApiCall) (h : interpretCall env s c = .ok t) :
    t.initialized = s.initialized := by
  cases c with
  | registerCommand spec =>
    simp only [interpretCall, Except.ok.injEq] at h
    rw [← h]
    rfl
  | registerCommandFlag cn f hd =>
    simp only [interpretCall, Except.ok.injEq] at h
    rw [← h]
    rfl
  | addPlugin name =>
    simp only [interpretCall, Service.addPlugin] at h
    cases hres : resolvePluginRef env (PVal.arr2 (PVal.str name) (PVal.obj none false none)) with
    | error e => rw [hres] at h; exact absurd h (by simp)
    | ok p =>
      rw [hres] at h
      simp only [Except.ok.injEq] at h
      rw [← h]
  | otherCall =>
    simp only [interpretCall, Except.ok.injEq] at h
    rw [← h]

theorem interpretCalls_initialized (env : String → Option PVal) :
    ∀ (calls : List ApiCall) (s t : Service),
      interpretCalls env s calls = .ok t → t.initialized = s.initialized
  | [], s, t, h => by
    simp only [interpretCalls, Except.ok.injEq] at h
    rw [← h]
  | c :: rest, s, t, h => by
    simp only [interpretCalls] at h
    cases hc : interpretCall env s c with
    | error e => rw [hc] at h; exact absurd h (by simp)
    | ok s2 =>
      rw [hc] at h
      rw [interpretCalls_initialized env rest s2 t h,
        interpretCall_initialized env s s2 c hc]

theorem initPlugins_initialized (env : String → Option PVal)
    (applySem : String → List ApiCall) :
    ∀ (ps : List PVal) (s t : Service),
      Service.initPlugins env applySem s ps = .ok t → t.initialized = s.initialized
  | [], s, t, h => by
    simp only [Service.initPlugins, Except.ok.injEq] at h
    rw [← h]
  | p :: rest, s, t, h => by
    simp only [Service.initPlugins] at h
    cases hc : Service.initPlugin env applySem s p with
    | error e => rw [hc] at h; exact absurd h (by simp)
    | ok s2 =>
      rw [hc] at h
      rw [initPlugins_initialized env applySem rest s2 t h,
        interpretCalls_initialized env _ s s2 hc]

theorem init_ok_initialized (env : String → Option PVal)
    (applySem : String → List ApiCall) (s s2 : Service) (mode : String)
    (h : Service.init env applySem s mode = .ok s2) : s2.initialized = true := by
  by_cases hi : s.initialized
  · simp only [Service.init, if_pos hi, Except.ok.injEq] at h
    rw [← h]
    exact hi
  · simp only [Service.init, if_neg hi] at h
    cases hp : Service.initPlugins env applySem
        { s with initialized := true, mode := some mode }
        { s with initialized := true, mode := some mode }.plugins with
    | error e => rw [hp] at h; exact absurd h (by simp)
    | ok s3 =>
      rw [hp] at h
      have h3 : s3.initialized = true :=
        initPlugins_initialized env applySem _ _ s3 hp
      simp only [Except.ok.injEq] at h
      rw [← h]
      cases hcw : s3.projectOptions.chainWebpack with
      | none =>
        cases hrw : s3.projectOptions.configureWebpack <;>
          simp [hcw, hrw, h3]
      | some f =>
        cases hrw : ({ s3 with
            webpackChainFns := s3.webpackChainFns ++ [f] }).projectOptions.configureWebpack <;>
          simp [hcw, hrw, h3]

/-- C2: initialization is idempotent.  If a first `init(mode)` call on
a service succeeds with resulting state `s2`, then a second `init`
call with any mode is a no-op: it returns `s2` unchanged (so the
command map, the flag and handler maps, the plugin list, both webpack
callback lists and the stored mode are exactly as the first call left
them). -/
theorem c2_init_idempotent (env : String → Option PVal)
    (applySem : String → List ApiCall) (s s2 : Service) (mode mode2 : String)
    (h : Service.init env applySem s mode = .ok s2) :
    Service.init env applySem s2 mode2 = .ok s2 := by
  have : s2.initialized = true := init_ok_initialized env applySem s s2 mode h
  simp [Service.init, this]

/-- Witness for C2: a concrete first `init` on a fresh service, then a
second `init` with a different mode returning the state unchanged. -/
theorem c2_init_idempotent_witness :
    Service.init (fun _ => none) (fun _ => []) svcInited "production" = .ok svcInited :=
  c2_init_idempotent (fun _ => none) (fun _ => []) svcBase svcInited
    "development" "production" rfl

/-! ## C9: `resolveWebpackConfig` before `init` -/

/-- C9: calling `resolveWebpackConfig` on a service whose
initialization has not completed throws
`Service must call init() before calling resolveWebpackConfig().` and
leaves the service state unchanged. -/
theorem c9_resolveWebpackConfig_requires_init (toConfig : ChainC → WConf)
    (merge : WConf → WConf → WConf) (s : Service) (chainArg : Option ChainC)
    (h : s.initialized = false) :
    Service.resolveWebpackConfig toConfig merge s chainArg
      = (.error "Service must call init() before calling resolveWebpackConfig().", s) := by
  simp [Service.resolveWebpackConfig, h]

/-- Witness for C9 on a fresh (uninitialized) service. -/
theorem c9_resolveWebpackConfig_requires_init_witness :
    Service.resolveWebpackConfig (fun _ => wconfEmpty) (fun a _ => a) svcBase none
      = (.error "Service must call init() before calling resolveWebpackConfig().", svcBase) :=
  c9_resolveWebpackConfig_requires_init (fun _ => wconfEmpty) (fun a _ => a) svcBase none rfl

/-! ## C4: `resolvePlugins` ordering and stability -/

theorem resolveRefList_spec (env : String → Option PVal) :
    ∀ (refs rs : List PVal), resolveRefList env refs = .ok rs →
      rs.length = refs.length
        ∧ ∀ i, i < refs.length →
            ∃ p r, refs.get? i = some p ∧ resolvePluginRef env p = .ok r ∧ rs.get? i = some r
  | [], rs, h => by
    simp only [resolveRefList, Except.ok.injEq] at h
    subst h
    exact ⟨rfl, fun i hi => absurd hi (by simp)⟩
  | p :: rest, rs, h => by
    simp only [resolveRefList] at h
    cases hp : resolvePluginRef env p with
    | error e => rw [hp] at h; exact absurd h (by simp)
    | ok r =>
      rw [hp] at h
      cases hrest : resolveRefList env rest with
      | error e => rw [hrest] at h; exact absurd h (by simp)
      | ok rs2 =>
        rw [hrest] at h
        simp only [Except.ok.injEq] at h
        subst h
        have ih := resolveRefList_spec env rest rs2 hrest
        refine ⟨by simp [ih.1], fun i hi => ?_⟩
        cases i with
        | zero => exact ⟨p, r, rfl, hp, rfl⟩
        | succ j =>
          obtain ⟨q, r2, hq, hr2, hrs⟩ := ih.2 j (Nat.lt_of_succ_lt_succ hi)
          exact ⟨q, r2, hq, hr2, hrs⟩

/-- C4: whenever `resolvePlugins` succeeds on a reference list, the
result is the built-in plugin list (empty when built-ins are disabled;
with built-ins enabled, the five built-ins in the fixed order base,
css, app, optimization, babel) followed by the resolved user
references in their input order (`l[|builtins| + i]` resolves
`refs[i]`), and a repeated call with the same input returns the same
list. -/
theorem c4_resolvePlugins_order (env : String → Option PVal) (refs l : List PVal)
    (b : Bool) (h : resolvePlugins env refs b = .ok l) :
    l.take (builtinsOf b).length = builtinsOf b
    ∧ (b = true → builtinsOf b = BUILDIN_PLUGINS.map builtinModule)
    ∧ l.length = (builtinsOf b).length + refs.length
    ∧ (∀ i, i < refs.length →
        ∃ p r, refs.get? i = some p ∧ resolvePluginRef env p = .ok r
          ∧ l.get? ((builtinsOf b).length + i) = some r)
    ∧ (∀ l2, resolvePlugins env refs b = .ok l2 → l2 = l) := by
  have hdet : ∀ l2, resolvePlugins env refs b = .ok l2 → l2 = l := by
    intro l2 h2
    rw [h] at h2
    exact ((Except.ok.injEq _ _).mp h2).symm
  have hfixed : b = true → builtinsOf b = BUILDIN_PLUGINS.map builtinModule := by
    intro hb
    subst hb
    rfl
  cases refs with
  | nil =>
    have h0 : resolvePlugins env [] b = .ok (builtinsOf b) := rfl
    rw [h0] at h
    have hl := (Except.ok.injEq _ _).mp h
    subst hl
    exact ⟨List.take_length _, hfixed, by simp, fun i hi => absurd hi (by simp), hdet⟩
  | cons p rest =>
    have hne : (p :: rest).length ≠ 0 := by simp
    simp only [resolvePlugins, if_pos hne, reduceIte] at h
    cases hrl : resolveRefList env (p :: rest) with
    | error e => rw [hrl] at h; exact absurd h (by simp)
    | ok rs =>
      rw [hrl] at h
      simp only [Except.ok.injEq] at h
      subst h
      have hspec := resolveRefList_spec env (p :: rest) rs hrl
      refine ⟨List.take_left _ _, hfixed, ?_, fun i hi => ?_, hdet⟩
      · rw [List.length_append, hspec.1]
      · obtain ⟨q, r, hq, hr, hrs⟩ := hspec.2 i hi
        refine ⟨q, r, hq, hr, ?_⟩
        rw [List.get?_append_right (Nat.le_add_right _ i)]
        have h5 : (builtinsOf b).length + i - (builtinsOf b).length = i := by omega
        rw [h5]
        exact hrs

/-- Witness for C4: one resolvable string reference with built-ins
enabled; the leading entries of the result are the built-ins. -/
theorem c4_resolvePlugins_order_witness :
    ((BUILDIN_PLUGINS.map builtinModule ++ [PVal.obj (some "my-plugin") true none]).take
        (builtinsOf true).length)
      = builtinsOf true :=
  (c4_resolvePlugins_order (fun _ => some (PVal.obj none true none))
      [PVal.str "my-plugin"]
      (BUILDIN_PLUGINS.map builtinModule ++ [PVal.obj (some "my-plugin") true none])
      true rfl).1

/-! ## C7: failing string plugin references -/

theorem resolvePluginRef_str_error (env : String → Option PVal) (name : String)
    (h : env name = none ∨ ∃ m, env name = some m ∧ loadedPluginInvalid m = true) :
    resolvePluginRef env (PVal.str name) = .error ("Require plugin is valid : " ++ name) := by
  cases h with
  | inl hnone => simp [resolvePluginRef, hnone]
  | inr hsome =>
    obtain ⟨m, hm, hinv⟩ := hsome
    simp only [resolvePluginRef, hm]
    cases hu : unwrapDefault m with
    | obj id ha dflt =>
      cases ha with
      | true => rw [loadedPluginInvalid, hu] at hinv; exact absurd hinv (by simp)
      | false => simp
    | str s => simp
    | arr2 a b => simp
    | arrOther => simp
    | other => simp

theorem resolveRefList_mem_error (env : String → Option PVal) (name : String)
    (herr : resolvePluginRef env (PVal.str name)
      = .error ("Require plugin is valid : " ++ name)) :
    ∀ (refs : List PVal), PVal.str name ∈ refs →
      ∀ rs, resolveRefList env refs ≠ .ok rs
  | [], hmem, rs => absurd hmem (by simp)
  | p :: rest, hmem, rs => by
    rcases List.mem_cons.mp hmem with hp | hrest
    · subst hp
      simp [resolveRefList, herr]
    · intro hok
      simp only [resolveRefList] at hok
      cases hp : resolvePluginRef env p with
      | error e => rw [hp] at hok; exact absurd hok (by simp)
      | ok r =>
        rw [hp] at hok
        cases hrl : resolveRefList env rest with
        | error e => rw [hrl] at hok; exact absurd hok (by simp)
        | ok rs2 => exact resolveRefList_mem_error env name herr rest hrest rs2 hrl

/-- C7: a string plugin reference whose module cannot be loaded, or
whose loaded value lacks a callable `apply`, makes `_resolvePlugin`
throw a fatal `SError` naming the reference
(`Require plugin is valid : <ref>`); any `resolvePlugins` run containing
such a reference throws too, so no descriptor list containing it is ever
produced. -/
theorem c7_invalid_plugin_reference (env : String → Option PVal) (name : String)
    (h : env name = none ∨ ∃ m, env name = some m ∧ loadedPluginInvalid m = true) :
    resolvePluginRef env (PVal.str name) = .error ("Require plugin is valid : " ++ name)
    ∧ ∀ (refs : List PVal) (b : Bool) (l : List PVal),
        PVal.str name ∈ refs → resolvePlugins env refs b ≠ .ok l := by
  have herr := resolvePluginRef_str_error env name h
  refine ⟨herr, fun refs b l hmem => ?_⟩
  have hne : refs.length ≠ 0 := by
    cases refs with
    | nil => exact absurd hmem (by simp)
    | cons p rest => simp
  intro hok
  simp only [resolvePlugins, if_pos hne, reduceIte] at hok
  cases hrl : resolveRefList env refs with
  | error e => rw [hrl] at hok; exact absurd hok (by simp)
  | ok rs => exact resolveRefList_mem_error env name herr refs hmem rs hrl

/-- Witness for C7: an unresolvable module reference. -/
theorem c7_invalid_plugin_reference_witness :
    resolvePluginRef (fun _ => none) (PVal.str "missing-plugin")
      = .error ("Require plugin is valid : " ++ "missing-plugin") :=
  (c7_invalid_plugin_reference (fun _ => none) "missing-plugin" (Or.inl rfl)).1

/-! ## C8: `__ruleNames` restoration after the raw-merge pass -/

theorem cloneRule_names (t f : WRule) : (cloneRule t f).names = f.names := by
  cases t with
  | mk tn tp to2 =>
    cases f with
    | mk fn fp fo => simp [cloneRule, WRule.names]

theorem cloneRule_oneOf_some (t f : WRule) (ts fs : WRules)
    (ht : t.oneOf = some ts) (hf : f.oneOf = some fs) :
    (cloneRule t f).oneOf = some (cloneRules ts fs) := by
  cases t with
  | mk tn tp to2 =>
    cases f with
    | mk fn fp fo =>
      simp only [WRule.oneOf] at ht hf
      subst ht
      subst hf
      simp [cloneRule, WRule.oneOf]

theorem cloneRules_get? :
    ∀ (ts fs : WRules) (i : Nat),
      (cloneRules ts fs).get? i
        = match ts.get? i, fs.get? i with
          | some t, some f => some (cloneRule t f)
          | some t, none => some t
          | none, _ => none
  | .rnil, fs, i => by
    rw [cloneRules]
    simp [WRules.get?]
  | .rcons t ts, .rnil, i => by
    rw [cloneRules]
    cases h : (WRules.rcons t ts).get? i <;> simp [WRules.get?]
  | .rcons t ts, .rcons f fs, i => by
    rw [cloneRules]
    cases i with
    | zero => simp [WRules.get?]
    | succ j =>
      simp only [WRules.get?]
      exact cloneRules_get? ts fs j

theorem ruleAt_cloneRules :
    ∀ (path : List Nat) (ts fs : WRules) (rt rf : WRule),
      ruleAt ts path = some rt → ruleAt fs path = some rf →
      (ruleAt (cloneRules ts fs) path).map WRule.names = some rf.names
  | [], ts, fs, rt, rf, ht, hf => by simp [ruleAt] at ht
  | [i], ts, fs, rt, rf, ht, hf => by
    simp only [ruleAt] at ht hf ⊢
    rw [cloneRules_get? ts fs i, ht, hf]
    simp [cloneRule_names]
  | i :: j :: rest, ts, fs, rt, rf, ht, hf => by
    simp only [ruleAt, Option.bind_eq_some] at ht hf
    obtain ⟨t, hts, tcs, hto, ht2⟩ := ht
    obtain ⟨f, hfs, fcs, hfo, hf2⟩ := hf
    have hcg : (cloneRules ts fs).get? i = some (cloneRule t f) := by
      rw [cloneRules_get? ts fs i, hts, hfs]
    simp only [ruleAt, hcg, Option.some_bind, cloneRule_oneOf_some t f tcs fcs hto hfo]
    exact ruleAt_cloneRules (j :: rest) tcs fcs rt rf ht2 hf2

/-- C8: when the raw-merge pass of `resolveWebpackConfig` produced a
fresh config object, the returned config is the merged config with
`cloneRuleNames` applied against the pre-merge config, and for every
position (index path, descending through `oneOf` groups) at which both
the merged and the pre-merge config have a rule, the returned config's
rule carries the pre-merge rule's `__ruleNames` value. -/
theorem c8_resolveWebpackConfig_restores_rule_names (toConfig : ChainC → WConf)
    (merge : WConf → WConf → WConf) (s : Service) (chainArg : Option ChainC) (m : WConf)
    (hinit : s.initialized = true)
    (hmerge : mergePass merge s.webpackRawConfigFns (toConfig (chainArgOf s chainArg))
      = (m, true)) :
    (Service.resolveWebpackConfig toConfig merge s chainArg).1
      = .ok (restoreRuleInfo m (toConfig (chainArgOf s chainArg)))
    ∧ ∀ (path : List Nat) (rt rf : WRule),
        confRuleAt m path = some rt →
        confRuleAt (toConfig (chainArgOf s chainArg)) path = some rf →
        ruleNamesAt (restoreRuleInfo m (toConfig (chainArgOf s chainArg))) path
          = some rf.names := by
  constructor
  · simp [Service.resolveWebpackConfig, hinit, hmerge]
  · intro path rt rf hm horig
    simp only [confRuleAt] at hm horig
    cases hmr : m.modRules with
    | none => rw [hmr] at hm; exact absurd hm (by simp)
    | some ts =>
      rw [hmr] at hm
      cases hor : (toConfig (chainArgOf s chainArg)).modRules with
      | none => rw [hor] at horig; exact absurd horig (by simp)
      | some fs =>
        rw [hor] at horig
        cases hmod : m.module with
        | none => rw [WConf.modRules, hmod] at hmr; exact absurd hmr (by simp)
        | some mm =>
          have hrules : mm.rules = some ts := by
            rw [WConf.modRules, hmod] at hmr
            exact hmr
          have hres : restoreRuleInfo m (toConfig (chainArgOf s chainArg))
              = { m with module := some { mm with rules := some (cloneRules ts fs) } } := by
            simp only [restoreRuleInfo, hmod, hrules, hor, cloneRuleNames]
          rw [hres]
          simp only [ruleNamesAt, confRuleAt, WConf.modRules]
          exact ruleAt_cloneRules path ts fs rt rf hm horig

/-- Witness for C8: a literal raw-merge contribution replaces the rule
object; the restored config carries the pre-merge `__ruleNames`. -/
theorem c8_resolveWebpackConfig_restores_rule_names_witness :
    ruleNamesAt (restoreRuleInfo wconfStripped (toConfigC8 (chainArgOf svcC8 (some 0)))) [0]
      = some (some ["r1"]) :=
  (c8_resolveWebpackConfig_restores_rule_names toConfigC8 (fun _ b => b) svcC8 (some 0)
      wconfStripped rfl rfl).2
    [0] (WRule.mk none 1 none) (WRule.mk (some ["r1"]) 0 none) rfl rfl

/-! ## C6: config discovery, merge precedence, missing file -/

theorem flookup_fappend (k : String) :
    ∀ (a b : JFields),
      flookup k (fappend a b)
        = match flookup k a with
          | some v => some v
          | none => flookup k b
  | .fnil, b => by simp [fappend, flookup]
  | .fcons k2 v rest, b => by
    by_cases hk : k2 = k
    · subst hk
      simp [fappend, flookup]
    · simp only [fappend, flookup, if_neg hk]
      exact flookup_fappend k rest b

theorem mergeFields_flookup (k : String) (s : JVal) :
    ∀ (df : JFields) (v : JVal), flookup k df = some v →
      flookup k (mergeFields df s)
        = some
          (match jlookupV k s with
           | some sv => defaultsDeep v sv
           | none => v)
  | .fnil, v, h => by simp [flookup] at h
  | .fcons k2 v2 rest, v, h => by
    by_cases hk : k2 = k
    · subst hk
      have h2 : v2 = v := by simpa [flookup] using h
      subst h2
      simp [mergeFields, flookup]
    · simp only [flookup, if_neg hk] at h
      simp only [mergeFields, flookup, if_neg hk]
      exact mergeFields_flookup k s rest v h

theorem defaultsDeep_prim (v sv : JVal) (h : jIsPrim v = true) :
    defaultsDeep v sv = v := by
  cases v <;> cases sv <;> simp_all [defaultsDeep, jIsPrim]

theorem jgetPath_defaultsDeep :
    ∀ (path : List String) (d m v : JVal), jgetPath d path = some v →
      (jIsPrim v = true → jgetPath (defaultsDeep d m) path = some v)
      ∧ (∀ a, v = .arr a →
          ∃ tl, jgetPath (defaultsDeep d m) path = some (.arr (a ++ tl)))
  | [], d, m, v, h => by
    simp only [jgetPath, Option.some.injEq] at h
    subst h
    constructor
    · intro hprim
      simp [jgetPath, defaultsDeep_prim d m hprim]
    · intro a ha
      subst ha
      cases m with
      | arr b => exact ⟨b.drop a.length, by simp [jgetPath, defaultsDeep]⟩
      | undef => exact ⟨[], by simp [jgetPath, defaultsDeep]⟩
      | jbool b2 => exact ⟨[], by simp [jgetPath, defaultsDeep]⟩
      | num n => exact ⟨[], by simp [jgetPath, defaultsDeep]⟩
      | str s => exact ⟨[], by simp [jgetPath, defaultsDeep]⟩
      | obj fs => exact ⟨[], by simp [jgetPath, defaultsDeep]⟩
  | k :: rest, d, m, v, h => by
    simp only [jgetPath, Option.bind_eq_some] at h
    obtain ⟨v2, hv2, hrest⟩ := h
    cases d with
    | undef => simp [jlookupV] at hv2
    | jbool b2 => simp [jlookupV] at hv2
    | num n => simp [jlookupV] at hv2
    | str s => simp [jlookupV] at hv2
    | arr a2 => simp [jlookupV] at hv2
    | obj df =>
      simp only [jlookupV] at hv2
      by_cases hm : jIsObj m = true
      · obtain ⟨mf, rfl⟩ : ∃ mf, m = .obj mf := by
          cases m <;> first | exact ⟨_, rfl⟩ | simp [jIsObj] at hm
        have hmerge : jlookupV k (defaultsDeep (.obj df) (.obj mf))
            = some
              (match jlookupV k (.obj mf) with
               | some sv => defaultsDeep v2 sv
               | none => v2) := by
          simp only [defaultsDeep, jlookupV]
          rw [flookup_fappend k, mergeFields_flookup k (.obj mf) df v2 hv2]
          exact rfl
        cases hsv : jlookupV k (.obj mf) with
        | some sv =>
          rw [hsv] at hmerge
          have ih := jgetPath_defaultsDeep rest v2 sv v hrest
          constructor
          · intro hprim
            simp only [jgetPath, hmerge, Option.some_bind]
            exact ih.1 hprim
          · intro a ha
            obtain ⟨tl, htl⟩ := ih.2 a ha
            exact ⟨tl, by simp only [jgetPath, hmerge, Option.some_bind]; exact htl⟩
        | none =>
          rw [hsv] at hmerge
          constructor
          · intro _
            simp only [jgetPath, hmerge, Option.some_bind]
            exact hrest
          · intro a ha
            subst ha
            refine ⟨[], ?_⟩
            simp only [jgetPath, hmerge, Option.some_bind, List.append_nil]
            exact hrest
      · have hsame : defaultsDeep (.obj df) m = .obj df := by
          cases m <;> simp_all [defaultsDeep, jIsObj]
        constructor
        · intro _
          rw [hsame]
          simp only [jgetPath, jlookupV, hv2, Option.some_bind]
          exact hrest
        · intro a ha
          subst ha
          refine ⟨[], ?_⟩
          rw [hsame, List.append_nil]
          simp only [jgetPath, jlookupV, hv2, Option.some_bind]
          exact hrest

/-- C6: when no configuration file is found, `loadProjectOptions` does
not throw: it logs the missing-config warning and returns the built-in
defaults merged under the caller-supplied inline options (then
post-processed); when a file is found and validates, its config is
merged over that inline/default merge so that, at every path of keys
at which the file holds a primitive value, the merged config carries
exactly the file's value, and at every path at which the file holds an
array, the file's elements are kept at their indices (the lower layer
can only extend the array beyond them). -/
theorem c6_loadProjectOptions_missing_and_override (validate : JVal → Bool)
    (dflt inline : JVal) (pc bl : Option JVal) (fcf : JFields)
    (path : List String) (v : JVal)
    (hval : validate (.obj fcf) = true)
    (hpath : jgetPath (.obj fcf) path = some v) :
    loadProjectOptions validate dflt inline none pc bl
      = .ok (postProcess pc bl (defaultsDeep inline dflt), true)
    ∧ loadProjectOptions validate dflt inline (some (.obj fcf)) pc bl
      = .ok (postProcess pc bl (defaultsDeep (.obj fcf) (defaultsDeep inline dflt)), false)
    ∧ (jIsPrim v = true →
        jgetPath (defaultsDeep (.obj fcf) (defaultsDeep inline dflt)) path = some v)
    ∧ (∀ a, v = .arr a →
        ∃ tl, jgetPath (defaultsDeep (.obj fcf) (defaultsDeep inline dflt)) path
          = some (.arr (a ++ tl))) := by
  have hd := jgetPath_defaultsDeep path (.obj fcf) (defaultsDeep inline dflt) v hpath
  refine ⟨rfl, ?_, hd.1, hd.2⟩
  simp [loadProjectOptions, jIsObj, hval]

/-- Witness for C6: a file config `{css: {x: 2}}` wins at the nested
path `css.x` over the inline/default merge. -/
theorem c6_loadProjectOptions_missing_and_override_witness :
    jgetPath (defaultsDeep (.obj (.fcons "css" (.obj (.fcons "x" (.num 2) .fnil)) .fnil))
        (defaultsDeep (.obj .fnil) (.obj .fnil))) ["css", "x"]
      = some (.num 2) :=
  (c6_loadProjectOptions_missing_and_override (fun _ => true) (.obj .fnil) (.obj .fnil)
      none none (.fcons "css" (.obj (.fcons "x" (.num 2) .fnil)) .fnil)
      ["css", "x"] (.num 2) rfl rfl).2.2.1 rfl

/-! ## C3: publicPath normalization (corrected) -/

/-- Counterexample to C3 as stated: a publicPath of `"./assets"` (a
string, not an http/https URL) normalizes to `"assets/"`, which does
not begin with a slash, and a publicPath of `""` stays `""`, which has
no trailing slash either. -/
theorem c3_publicPath_counterexample :
    publicPathOf (loadProjectOptions (fun _ => true) (.obj .fnil)
        (.obj (.fcons "publicPath" (.str "./assets") .fnil)) none none none)
      = some (.str "assets/")
    ∧ "assets/".data.head? ≠ some '/'
    ∧ publicPathOf (loadProjectOptions (fun _ => true) (.obj .fnil)
        (.obj (.fcons "publicPath" (.str "") .fnil)) none none none)
      = some (.str "")
    ∧ "".data.getLast? ≠ some '/' :=
  ⟨rfl, by decide, rfl, by decide⟩

theorem appendSlashStr_eq (t : String) :
    appendSlashStr t
      = match t.data.getLast? with
        | none => t
        | some c => if c = '/' then t else String.mk (t.data ++ ['/']) := rfl

theorem pubNormStr_slashes (s : String) (c : Char) (rest : List Char)
    (hdata : s.data = c :: rest) (hurl : isHttpUrl s = false) (hdot : c ≠ '.') :
    (pubNormStr s).data.head? = some '/'
    ∧ (pubNormStr s).data.getLast? = some '/' := by
  have hpre : ∃ tl, (prependSlashNonDot s).data = '/' :: tl := by
    by_cases hc : c = '/'
    · subst hc
      exact ⟨rest, by simp [prependSlashNonDot, hdata]⟩
    · refine ⟨c :: rest, ?_⟩
      simp only [prependSlashNonDot, hdata]
      rw [if_neg (not_or.mpr ⟨hc, hdot⟩)]
  obtain ⟨tl, htl⟩ := hpre
  have hens : ensureSlashStr s = appendSlashStr (prependSlashNonDot s) := by
    rw [ensureSlashStr, if_neg (by rw [hurl]; exact Bool.false_ne_true)]
  have hmain : (ensureSlashStr s).data.head? = some '/'
      ∧ (ensureSlashStr s).data.getLast? = some '/' := by
    rw [hens, appendSlashStr_eq]
    cases hlast : (prependSlashNonDot s).data.getLast? with
    | none => rw [htl] at hlast; simp at hlast
    | some z =>
      simp only [hlast]
      by_cases hz : z = '/'
      · subst hz
        rw [if_pos rfl]
        constructor
        · rw [htl]
          rfl
        · exact hlast
      · rw [if_neg hz]
        constructor
        · show ((prependSlashNonDot s).data ++ ['/']).head? = some '/'
          rw [htl]
          rfl
        · show ((prependSlashNonDot s).data ++ ['/']).getLast? = some '/'
          exact List.getLast?_concat _
  obtain ⟨hh, hl⟩ := hmain
  have hstrip : ∀ (t : String), stripDotSlashStr t
      = match t.data with
        | '.' :: '/' :: r => String.mk r
        | _ => t := fun t => rfl
  have hnodot : pubNormStr s = ensureSlashStr s := by
    have heq : pubNormStr s = stripDotSlashStr (ensureSlashStr s) := rfl
    rw [heq, hstrip]
    cases hd2 : (ensureSlashStr s).data with
    | nil => rfl
    | cons c2 t2 =>
      rw [hd2] at hh
      simp only [List.head?, Option.some.injEq] at hh
      subst hh
      cases t2 <;> rfl
  rw [hnodot]
  exact ⟨hh, hl⟩

theorem flookup_fset_same (k : String) (x : JVal) :
    ∀ (fs : JFields), flookup k (fset fs k x) = some x
  | .fnil => by simp [fset, flookup]
  | .fcons k2 v2 rest => by
    by_cases h2 : k2 = k
    · subst h2
      simp [fset, flookup]
    · simp only [fset, if_neg h2, flookup, if_neg h2]
      exact flookup_fset_same k x rest

theorem flookup_fset_other (k2 k : String) (x : JVal) (h : k2 ≠ k) :
    ∀ (fs : JFields), flookup k (fset fs k2 x) = flookup k fs
  | .fnil => by simp [fset, flookup, if_neg h]
  | .fcons k3 v3 rest => by
    by_cases h3 : k3 = k2
    · subst h3
      simp only [fset, if_pos rfl, flookup, if_neg h]
    · simp only [fset, if_neg h3, flookup]
      by_cases h4 : k3 = k
      · simp [if_pos h4]
      · simp only [if_neg h4]
        exact flookup_fset_other k2 k x h rest

theorem jget_jset_same (config : JVal) (k : String) (x : JVal) (y : JVal)
    (h : jget config k = some y) : jget (jset config k x) k = some x := by
  cases config with
  | obj fs => simp [jget, jset, flookup_fset_same]
  | undef => simp [jget] at h
  | jbool b => simp [jget] at h
  | num n => simp [jget] at h
  | str s => simp [jget] at h
  | arr a => simp [jget] at h

theorem jget_jset_other (config : JVal) (k2 k : String) (x : JVal) (h : k2 ≠ k) :
    jget (jset config k2 x) k = jget config k := by
  cases config with
  | obj fs => simp [jget, jset, flookup_fset_other k2 k x h]
  | undef => rfl
  | jbool b => rfl
  | num n => rfl
  | str s => rfl
  | arr a => rfl

theorem cssStep_publicPath (pc : Option JVal) (config : JVal) :
    jget (cssStep pc config) "publicPath" = jget config "publicPath" := by
  simp only [cssStep]
  by_cases hc : (jtruthyO (jget config "css")
      && jtruthyO
        (match jget config "css" with
         | some c => jlookupV "postcss" c
         | none => none)) = true
  · rw [if_pos hc]
  · rw [if_neg hc]
    exact jget_jset_other config "css" "publicPath" _ (by decide)

theorem browserslistStep_publicPath (bl : Option JVal) (config : JVal) :
    jget (browserslistStep bl config) "publicPath" = jget config "publicPath" := by
  simp only [browserslistStep]
  by_cases hc : jtruthyO (jget config "browserslist") = true
  · rw [if_pos hc]
  · rw [if_neg hc]
    exact jget_jset_other config "browserslist" "publicPath" _ (by decide)

theorem removeSlashKey_other (config : JVal) (k2 k : String) (h : k2 ≠ k) :
    jget (removeSlashKey config k2) k = jget config k := by
  rw [removeSlashKey]
  cases hg : jget config k2 with
  | none => rfl
  | some w =>
    cases w with
    | str s => exact jget_jset_other config k2 k _ h
    | undef => rfl
    | jbool b => rfl
    | num n => rfl
    | arr a => rfl
    | obj fs => rfl

theorem postProcess_publicPath_str (pc bl : Option JVal) (config : JVal) (s : String)
    (h : jget config "publicPath" = some (.str s)) :
    jget (postProcess pc bl config) "publicPath" = some (.str (pubNormStr s)) := by
  have h2 : jget (browserslistStep bl (cssStep pc config)) "publicPath"
      = some (.str s) := by
    rw [browserslistStep_publicPath, cssStep_publicPath, h]
  have h3 : jget (ensureSlashKey (browserslistStep bl (cssStep pc config)) "publicPath")
      "publicPath" = some (.str (ensureSlashStr s)) := by
    rw [ensureSlashKey, h2]
    exact jget_jset_same _ "publicPath" _ _ h2
  have h4 : jget (stripPublicPathDotSlash
        (ensureSlashKey (browserslistStep bl (cssStep pc config)) "publicPath"))
      "publicPath" = some (.str (pubNormStr s)) := by
    rw [stripPublicPathDotSlash, h3]
    exact jget_jset_same _ "publicPath" _ _ h3
  rw [postProcess, removeSlashKey_other _ "outputDir" "publicPath" (by decide)]
  exact h4

theorem postProcess_publicPath_nonstr (pc bl : Option JVal) (config : JVal) (v : JVal)
    (h : jget config "publicPath" = some v) (hns : ∀ t, v ≠ .str t) :
    jget (postProcess pc bl config) "publicPath" = some v := by
  have h2 : jget (browserslistStep bl (cssStep pc config)) "publicPath"
      = some v := by
    rw [browserslistStep_publicPath, cssStep_publicPath, h]
  have h3 : ensureSlashKey (browserslistStep bl (cssStep pc config)) "publicPath"
      = browserslistStep bl (cssStep pc config) := by
    rw [ensureSlashKey, h2]
    cases v with
    | str t => exact absurd rfl (hns t)
    | undef => rfl
    | jbool b => rfl
    | num n => rfl
    | arr a => rfl
    | obj fs => rfl
  have h4 : stripPublicPathDotSlash (browserslistStep bl (cssStep pc config))
      = browserslistStep bl (cssStep pc config) := by
    rw [stripPublicPathDotSlash, h2]
    cases v with
    | str t => exact absurd rfl (hns t)
    | undef => rfl
    | jbool b => rfl
    | num n => rfl
    | arr a => rfl
    | obj fs => rfl
  rw [postProcess, removeSlashKey_other _ "outputDir" "publicPath" (by decide), h3, h4]
  exact h2

theorem loadProjectOptions_ok_shape (validate : JVal → Bool)
    (dflt inline : JVal) (found : Option JVal) (pc bl : Option JVal)
    (cfg : JVal) (w : Bool)
    (h : loadProjectOptions validate dflt inline found pc bl = .ok (cfg, w)) :
    cfg = postProcess pc bl (mergedConfig dflt inline found) := by
  cases found with
  | none =>
    simp only [loadProjectOptions, Except.ok.injEq, Prod.mk.injEq] at h
    rw [← h.1]
    rfl
  | some fc =>
    simp only [loadProjectOptions] at h
    by_cases hobj : jIsObj fc = true
    · rw [if_pos hobj] at h
      by_cases hv : validate fc = true
      · rw [if_pos hv] at h
        simp only [Except.ok.injEq, Prod.mk.injEq] at h
        rw [← h.1]
        rfl
      · rw [if_neg hv] at h
        exact absurd h (by simp)
    · rw [if_neg hobj] at h
      simp only [Except.ok.injEq, Prod.mk.injEq] at h
      rw [← h.1]
      rfl

/-- C3 (amended): for every `loadProjectOptions` call that returns a
config, when the merged configuration layer (defaults, inline options
and discovered file) holds a string publicPath that is nonempty, not a
full http/https URL, and does not start with `.`, the returned
config's publicPath is the normalized string, which begins with a
leading slash and ends with a trailing slash; a non-string publicPath
value is returned unchanged. -/
theorem c3_publicPath_normalization_amended (validate : JVal → Bool)
    (dflt inline : JVal) (found : Option JVal) (pc bl : Option JVal)
    (cfg : JVal) (w : Bool)
    (hrun : loadProjectOptions validate dflt inline found pc bl = .ok (cfg, w)) :
    cfg = postProcess pc bl (mergedConfig dflt inline found)
    ∧ (∀ (s : String) (c : Char) (rest : List Char),
        jget (mergedConfig dflt inline found) "publicPath" = some (.str s) →
        s.data = c :: rest → isHttpUrl s = false → c ≠ '.' →
        jget cfg "publicPath" = some (.str (pubNormStr s))
        ∧ (pubNormStr s).data.head? = some '/'
        ∧ (pubNormStr s).data.getLast? = some '/')
    ∧ (∀ (v : JVal), jget (mergedConfig dflt inline found) "publicPath" = some v →
        (∀ t, v ≠ .str t) → jget cfg "publicPath" = some v) := by
  have hcfg := loadProjectOptions_ok_shape validate dflt inline found pc bl cfg w hrun
  refine ⟨hcfg, fun s c rest hpub hdata hurl hdot => ?_, fun v hpub hns => ?_⟩
  · obtain ⟨hh, hl⟩ := pubNormStr_slashes s c rest hdata hurl hdot
    refine ⟨?_, hh, hl⟩
    rw [hcfg]
    exact postProcess_publicPath_str pc bl _ s hpub
  · rw [hcfg]
    exact postProcess_publicPath_nonstr pc bl _ v hpub hns

/-- Witness for C3 (amended): an inline publicPath `"assets"` with no
config file; the returned config's publicPath is `"/assets/"`, slash
on both ends. -/
theorem c3_publicPath_normalization_amended_witness :
    jget (postProcess none none (mergedConfig (JVal.obj .fnil)
        (JVal.obj (.fcons "publicPath" (JVal.str "assets") .fnil)) none)) "publicPath"
      = some (.str (pubNormStr "assets"))
    ∧ (pubNormStr "assets").data.head? = some '/'
    ∧ (pubNormStr "assets").data.getLast? = some '/' :=
  (c3_publicPath_normalization_amended (fun _ => true) (JVal.obj .fnil)
      (JVal.obj (.fcons "publicPath" (JVal.str "assets") .fnil)) none none none
      (postProcess none none (mergedConfig (JVal.obj .fnil)
        (JVal.obj (.fcons "publicPath" (JVal.str "assets") .fnil)) none)) true rfl).2.1
    "assets" 'a' ['s', 's', 'e', 't', 's'] rfl rfl rfl (by decide)

/-! ## C10: `loadEnv` and the `=== null` mode-default check (corrected) -/

theorem mapGet_mapSet_other {α : Type} (k2 k : String) (v : α) (h : k2 ≠ k) :
    ∀ (e : List (String × α)), mapGet (mapSet e k2 v) k = mapGet e k
  | [] => by simp [mapSet, mapGet, if_neg h]
  | (k3, v3) :: rest => by
    by_cases h3 : k3 = k2
    · subst h3
      simp only [mapSet, if_pos rfl, mapGet, if_neg h]
    · simp only [mapSet, if_neg h3, mapGet]
      by_cases h4 : k3 = k
      · simp [if_pos h4]
      · simp only [if_neg h4]
        exact mapGet_mapSet_other k2 k v h rest

theorem mapGet_mapSet_same {α : Type} (k : String) (v : α) :
    ∀ (e : List (String × α)), mapGet (mapSet e k v) k = some v
  | [] => by simp [mapSet, mapGet]
  | (k3, v3) :: rest => by
    by_cases h3 : k3 = k
    · subst h3
      simp [mapSet, mapGet]
    · simp only [mapSet, if_neg h3, mapGet, if_neg h3]
      exact mapGet_mapSet_same k v rest

theorem envFold_preserves (k : String) :
    ∀ (l : List (String × String)) (e : Env),
      k ∉ l.map Prod.fst →
      mapGet
        (l.foldl
          (fun e2 kv =>
            if (mapGet e2 kv.1).isSome then e2 else mapSet e2 kv.1 (EnvVal.vstr kv.2))
          e) k
        = mapGet e k
  | [], e, _ => rfl
  | (k2, v2) :: rest, e, hmem => by
    have hk2 : k2 ≠ k := by
      intro hcontra
      exact hmem (by simp [hcontra])
    have hrest : k ∉ rest.map Prod.fst := fun hc => hmem (by simp [hc])
    simp only [List.foldl_cons]
    rw [envFold_preserves k rest _ hrest]
    by_cases hcase : (mapGet e k2).isSome
    · rw [if_pos hcase]
    · rw [if_neg hcase]
      exact mapGet_mapSet_other k2 k _ hk2 e

/-- Counterexample to C10 as stated: with a non-empty mode, `NODE_ENV`
absent from the process environment but defined in the discovered env
file, `loadEnv` leaves `NODE_ENV` bound (to the env-file value) — the
variable is not "still absent after loadEnv returns". -/
theorem c10_loadEnv_counterexample :
    mapGet ([] : Env) "NODE_ENV" = none
    ∧ loadEnv true [("NODE_ENV", "test")] none "production" []
        = [("NODE_ENV", EnvVal.vstr "test")]
    ∧ mapGet (loadEnv true [("NODE_ENV", "test")] none "production" []) "NODE_ENV" ≠ none :=
  ⟨rfl, rfl, by decide⟩

theorem mapGet_modeAssign_other (d : String) (e : Env) (k2 k : String) (h : k2 ≠ k) :
    mapGet (modeAssign d e k2) k = mapGet e k := by
  unfold modeAssign
  by_cases hc : mapGet e k2 = some EnvVal.vnull
  · rw [if_pos hc]
    exact mapGet_mapSet_other k2 k _ h e
  · rw [if_neg hc]

theorem mapGet_modeAssign_none (d : String) (e : Env) (k : String)
    (h : mapGet e k = none) : mapGet (modeAssign d e k) k = none := by
  unfold modeAssign
  rw [if_neg (by rw [h]; exact fun hc => Option.noConfusion hc)]
  exact h

theorem mapGet_modeAssign_null (d : String) (e : Env) (k : String)
    (h : mapGet e k = some EnvVal.vnull) :
    mapGet (modeAssign d e k) k = some (EnvVal.vstr d) := by
  unfold modeAssign
  rw [if_pos h]
  exact mapGet_mapSet_same k _ e

/-- C10 (amended): with a non-empty mode and for `NODE_ENV` or
`BABEL_ENV` not defined by the loaded env files, `loadEnv` assigns the
mode-derived default (the mode for production, else `development`) only
when the variable's current value is strictly `null`: a variable that is
absent (unset) stays absent, and a `null`-valued one receives the
default. -/
theorem c10_loadEnv_null_check_amended (envFound : Bool)
    (defaultEnv : List (String × String)) (localEnv : Option (List (String × String)))
    (mode : String) (env : Env) (k : String)
    (hmode : mode ≠ "")
    (hobj : k ∉ (assignStr defaultEnv (localEnv.getD [])).map Prod.fst)
    (hk12 : k = "NODE_ENV" ∨ k = "BABEL_ENV") :
    (mapGet env k = none → mapGet (loadEnv envFound defaultEnv localEnv mode env) k = none)
    ∧ (envFound = true → mapGet env k = some EnvVal.vnull →
        mapGet (loadEnv envFound defaultEnv localEnv mode env) k
          = some (EnvVal.vstr (if mode = "production" then mode else "development"))) := by
  cases envFound with
  | false =>
    refine ⟨fun h => ?_, fun hcontra => absurd hcontra (by simp)⟩
    simpa [loadEnv] using h
  | true =>
    simp only [loadEnv, Bool.not_true, Bool.false_eq_true, if_neg, reduceIte, if_pos hmode,
      List.foldl_cons, List.foldl_nil]
    have h1 := envFold_preserves k (assignStr defaultEnv (localEnv.getD [])) env hobj
    constructor
    · intro hnone
      rw [hnone] at h1
      rcases hk12 with hk | hk
      · subst hk
        rw [mapGet_modeAssign_other _ _ _ _ (by decide),
          mapGet_modeAssign_none _ _ _ h1]
      · subst hk
        have hs1 := (mapGet_modeAssign_other
          (if mode = "production" then mode else "development") _
          "NODE_ENV" "BABEL_ENV" (by decide)).trans h1
        rw [mapGet_modeAssign_none _ _ _ hs1]
    · intro _ hnull
      rw [hnull] at h1
      rcases hk12 with hk | hk
      · subst hk
        rw [mapGet_modeAssign_other _ _ _ _ (by decide),
          mapGet_modeAssign_null _ _ _ h1]
      · subst hk
        have hs1 := (mapGet_modeAssign_other
          (if mode = "production" then mode else "development") _
          "NODE_ENV" "BABEL_ENV" (by decide)).trans h1
        rw [mapGet_modeAssign_null _ _ _ hs1]

/-- Witness for C10 (amended): a `null`-valued `NODE_ENV` receives the
production default; an unset one stays unset. -/
theorem c10_loadEnv_null_check_amended_witness :
    mapGet (loadEnv true [] none "production" [("NODE_ENV", EnvVal.vnull)]) "NODE_ENV"
      = some (EnvVal.vstr (if "production" = "production" then "production"
          else "development")) :=
  (c10_loadEnv_null_check_amended true [] none "production"
      [("NODE_ENV", EnvVal.vnull)] "NODE_ENV" (by decide) (by simp [assignStr])
      (Or.inl rfl)).2 rfl rfl

end SanCli
